import Mathlib

/-!
Verification development for the solitaire-plus repository (Klondike and
Spider solitaire engines).  The definitions below are a shallow embedding of
the game-state engine: JavaScript card objects become a `Card` structure,
piles are `List Card`, and every mutating UI handler becomes a guarded
state-transformation function.  JS numbers that hold card values are embedded
as `Int`; the seeded-shuffle arithmetic, which stays below 2^53 and is exact,
is embedded as `Nat` with the draw index read as exact rational arithmetic.
-/

namespace SolPlus

/-- A playing card, mirroring the JS object
`{suit, rank, value, color, faceUp, id}` built by `createDeck` /
`createSpiderDeck`. -/
structure Card where
  suit : String
  rank : String
  value : Int
  color : String
  faceUp : Bool
  id : String
deriving DecidableEq, Repr

instance : Inhabited Card := ⟨⟨"", "", 0, "", false, ""⟩⟩

/-- `SUITS = ['♠', '♥', '♦', '♣']` -/
def SUITS : List String := ["♠", "♥", "♦", "♣"]

/-- `RANKS = ['A','2',...,'K']` -/
def RANKS : List String :=
  ["A", "2", "3", "4", "5", "6", "7", "8", "9", "10", "J", "Q", "K"]

/-- `SUIT_COLORS = { '♠': 'black', '♣': 'black', '♥': 'red', '♦': 'red' }` -/
def SUIT_COLORS (s : String) : String :=
  if s = "♠" ∨ s = "♣" then "black" else "red"

/-- Klondike `createDeck()`: the 52 standard cards, ids `suit-rank`. -/
def createDeck : List Card :=
  SUITS.flatMap (fun suit =>
    (List.range RANKS.length).map (fun i =>
      { suit := suit
        rank := RANKS.getD i ""
        value := (i : Int) + 1
        color := SUIT_COLORS suit
        faceUp := false
        id := suit ++ "-" ++ RANKS.getD i "" }))

/-- `createSpiderDeck(suitCount)`: two physical decks over the suit slots
selected by `suitCount`; ids carry the running deck index so every one of the
104 cards has a distinct id. -/
def createSpiderDeck (suitCount : Nat) : List Card :=
  let suitsToUse : List String :=
    if suitCount = 1 then ["♠", "♠", "♠", "♠"]
    else if suitCount = 2 then ["♠", "♥", "♠", "♥"]
    else ["♠", "♥", "♦", "♣"]
  let mk : Nat → Nat → String → Nat → Card := fun d slot suit i =>
    { suit := suit
      rank := RANKS.getD i ""
      value := (i : Int) + 1
      color := SUIT_COLORS suit
      faceUp := false
      id := suit ++ "-" ++ RANKS.getD i "" ++ "-" ++ toString d ++ "-" ++
        toString (d * 52 + slot * 13 + i) }
  (List.range 2).flatMap (fun d =>
    (List.range suitsToUse.length).flatMap (fun slot =>
      (List.range RANKS.length).map (fun i =>
        mk d slot (suitsToUse.getD slot "") i)))

/-- The in-place flip of a newly exposed pile top used all over the source:
`if (pile.length > 0) { last = pile[pile.length-1]; if (!last.faceUp)
pile[pile.length-1] = {...last, faceUp: true} }`. -/
def flipTopCard (pile : List Card) : List Card :=
  match pile.getLast? with
  | none => pile
  | some c => if c.faceUp then pile else pile.dropLast ++ [{ c with faceUp := true }]

/-- Swap the entries at positions `i` and `j`
(`[a[i], a[j]] = [a[j], a[i]]`). -/
def listSwap (l : List Card) (i j : Nat) : List Card :=
  match l.get? i, l.get? j with
  | some a, some b => (l.set i b).set j a
  | _, _ => l

/-- `shuffleDeckWithSeed(deck, seed)`: Fisher–Yates with the linear
congruential recurrence `seed' = (seed*9301+49297) % 233280` and draw index
`j = floor((seed'/233280)*(i+1))`, read as exact rational arithmetic, which
for `seed' < 233280` equals `seed'*(i+1)/233280` in `Nat` division. -/
def shuffleAux (l : List Card) (seed : Nat) : Nat → List Card
  | 0 => l
  | i + 1 =>
    let s' := (seed * 9301 + 49297) % 233280
    let j := s' * (i + 2) / 233280
    shuffleAux (listSwap l (i + 1) j) s' i

def shuffleDeckWithSeed (deck : List Card) (seed : Nat) : List Card :=
  match deck.length with
  | 0 => deck
  | n + 1 => shuffleAux deck seed n

/-- The same generator, written the way the specification describes it: first
produce the stream of `(i, j)` swap pairs for `i = length-1, …, 1` from the
recurrence, then apply the swaps in order. -/
def lcgSwapPairs (seed : Nat) : Nat → List (Nat × Nat)
  | 0 => []
  | i + 1 =>
    let s' := (seed * 9301 + 49297) % 233280
    (i + 1, s' * (i + 2) / 233280) :: lcgSwapPairs s' i

def specFisherYates (deck : List Card) (seed : Nat) : List Card :=
  (lcgSwapPairs seed (deck.length - 1)).foldl
    (fun l p => listSwap l p.1 p.2) deck

end SolPlus

namespace Klondike

open SolPlus

/-- The Klondike pile aggregate cloned into history by `cloneGameState`
(tableau, foundations, stock, waste); the source keeps moves/timer outside
this record and does not snapshot them. -/
structure GameState where
  tableau : List (List Card)
  foundations : List (List Card)
  stock : List Card
  waste : List Card
deriving DecidableEq, Repr

/-- `cloneGameState`: per-card spread copies of every pile. -/
def copyCard (c : Card) : Card :=
  { suit := c.suit, rank := c.rank, value := c.value, color := c.color,
    faceUp := c.faceUp, id := c.id }

def cloneGameState (s : GameState) : GameState :=
  { tableau := s.tableau.map (fun pile => pile.map copyCard)
    foundations := s.foundations.map (fun pile => pile.map copyCard)
    stock := s.stock.map copyCard
    waste := s.waste.map copyCard }

/-- `canPlaceOnTableau(card, targetPile)`. -/
def canPlaceOnTableau (card : Card) (targetPile : List Card) : Bool :=
  match targetPile.getLast? with
  | none => card.rank = "K"
  | some topCard =>
    topCard.faceUp && card.color ≠ topCard.color && card.value = topCard.value - 1

/-- `canPlaceOnFoundation(card, foundationPile)`. -/
def canPlaceOnFoundation (card : Card) (foundationPile : List Card) : Bool :=
  match foundationPile.getLast? with
  | none => card.rank = "A"
  | some topCard => card.suit = topCard.suit && card.value = topCard.value + 1

/-- The mutating player actions of the Klondike engine.  Each constructor is
one family of code paths that calls `saveToHistory` and then mutates:
`drawFromStock`; waste/tableau/foundation moves in `handleCardClick`,
`handleEmptyClick`, `handleDoubleClick` and the auto-foundation effect.
`draw n` carries the draw-count setting (1 or 3). -/
inductive Act where
  | draw (n : Nat)
  | wasteToTableau (j : Nat)
  | tableauToTableau (i k j : Nat)
  | foundationToTableau (f j : Nat)
  | wasteToFoundation (f : Nat)
  | tableauToFoundation (i f : Nat)
deriving DecidableEq, Repr

/-- Guard of each action, exactly the condition under which the corresponding
source path executes its mutation.  Notes: a tableau target of
`handleCardClick` is always a clicked card, so a foundation card can reach
only a non-empty tableau pile (`handleEmptyClick` ignores foundation
selections); the waste/tableau empty-pile paths demand a King, which is
exactly `canPlaceOnTableau` on an empty pile, so the union of the clicked and
empty-pile paths is `canPlaceOnTableau` alone. -/
def guardB (a : Act) (s : GameState) : Bool :=
  match a with
  | .draw n => n = 1 || n = 3
  | .wasteToTableau j =>
    !s.waste.isEmpty && j < s.tableau.length &&
      canPlaceOnTableau (s.waste.getLast?.getD default) (s.tableau.getD j [])
  | .tableauToTableau i k j =>
    i < s.tableau.length && j < s.tableau.length &&
      k < (s.tableau.getD i []).length &&
      ((s.tableau.getD i []).getD k default).faceUp &&
      canPlaceOnTableau ((s.tableau.getD i []).getD k default) (s.tableau.getD j [])
  | .foundationToTableau f j =>
    f < s.foundations.length && !(s.foundations.getD f []).isEmpty &&
      j < s.tableau.length && !(s.tableau.getD j []).isEmpty &&
      canPlaceOnTableau ((s.foundations.getD f []).getLast?.getD default)
        (s.tableau.getD j [])
  | .wasteToFoundation f =>
    !s.waste.isEmpty && f < s.foundations.length &&
      canPlaceOnFoundation (s.waste.getLast?.getD default) (s.foundations.getD f [])
  | .tableauToFoundation i f =>
    i < s.tableau.length && !(s.tableau.getD i []).isEmpty &&
      ((s.tableau.getD i []).getLast?.getD default).faceUp &&
      f < s.foundations.length &&
      canPlaceOnFoundation ((s.tableau.getD i []).getLast?.getD default)
        (s.foundations.getD f [])

def Guard (a : Act) (s : GameState) : Prop := guardB a s = true

instance (a : Act) (s : GameState) : Decidable (Guard a s) := by
  unfold Guard; infer_instance

/-- Effect of each action on the pile aggregate, following the source
statement by statement. -/
def apply (a : Act) (s : GameState) : GameState :=
  match a with
  | .draw n =>
    if s.stock.isEmpty then
      if s.waste.isEmpty then s
      else
        { s with
          stock := (s.waste.map (fun c => { c with faceUp := false })).reverse
          waste := [] }
    else
      let cardsToDraw := min n s.stock.length
      let drawnCards := (s.stock.drop (s.stock.length - cardsToDraw)).map
        (fun c => { c with faceUp := true })
      { s with
        stock := s.stock.take (s.stock.length - cardsToDraw)
        waste := s.waste ++ drawnCards }
  | .wasteToTableau j =>
    let card := s.waste.getLast?.getD default
    { s with
      tableau := s.tableau.set j ((s.tableau.getD j []) ++ [card])
      waste := s.waste.dropLast }
  | .tableauToTableau i k j =>
    let sourcePile := s.tableau.getD i []
    let targetPile := s.tableau.getD j []
    let cardsToMove := sourcePile.drop k
    let t1 := (s.tableau.set i (sourcePile.take k)).set j (targetPile ++ cardsToMove)
    { s with tableau := t1.set i (flipTopCard (t1.getD i [])) }
  | .foundationToTableau f j =>
    let card := (s.foundations.getD f []).getLast?.getD default
    { s with
      foundations := s.foundations.set f (s.foundations.getD f []).dropLast
      tableau := s.tableau.set j ((s.tableau.getD j []) ++ [card]) }
  | .wasteToFoundation f =>
    let card := s.waste.getLast?.getD default
    { s with
      foundations := s.foundations.set f ((s.foundations.getD f []) ++ [card])
      waste := s.waste.dropLast }
  | .tableauToFoundation i f =>
    let card := (s.tableau.getD i []).getLast?.getD default
    { s with
      foundations := s.foundations.set f ((s.foundations.getD f []) ++ [card])
      tableau := s.tableau.set i (flipTopCard (s.tableau.getD i []).dropLast) }

/-- Move-counter change of each executed action (`setMoves(m => m + 1)` in
every mutating path except the dead `drawFromStock` branch with empty stock
and empty waste, which saves history but moves nothing). -/
def movesDelta (a : Act) (s : GameState) : Int :=
  match a with
  | .draw _ => if s.stock.isEmpty && s.waste.isEmpty then 0 else 1
  | _ => 1

end Klondike

namespace Klondike

open SolPlus

/-- The triangular deal order of `initGame`: for `round = 0..6`, one card to
every column `col = round..6`, face-up exactly when `col === round` (the last
card a column receives). -/
def dealOrder : List (Nat × Bool) :=
  (List.range 7).flatMap (fun round =>
    (List.range' round (7 - round)).map (fun col => (col, col = round)))

/-- Sequential dealing of the deck along an order list, as executed by
`dealNextCard` (`deckIndex` walks the deck front to back). -/
def dealFold : List (Nat × Bool) → List Card → List (List Card) →
    List (List Card) × List Card
  | [], deck, t => (t, deck)
  | (col, isLast) :: rest, deck, t =>
    match deck with
    | [] => (t, [])
    | card :: deckRest =>
      dealFold rest deckRest
        (t.set col ((t.getD col []) ++ [{ card with faceUp := isLast }]))

/-- The initial Klondike state dealt from a shuffled deck: 7 tableau piles in
triangular order, the remaining cards as face-down stock, empty foundations
and waste. -/
def dealGame (deck : List Card) : GameState :=
  let d := dealFold dealOrder deck [[], [], [], [], [], [], []]
  { tableau := d.1
    foundations := [[], [], [], []]
    stock := d.2.map (fun c => { c with faceUp := false })
    waste := [] }

/-- The ad hoc selection record `{source, pileIndex, cardIndex}`. -/
structure Sel where
  source : String
  pileIndex : Option Nat
  cardIndex : Option Nat
deriving DecidableEq, Repr

/-- The component state the handlers read and write: pile aggregate, history
stack, move counter and active selection. -/
structure Session where
  game : GameState
  history : List GameState
  moves : Int
  selected : Option Sel
deriving DecidableEq, Repr

/-- `handleUndo` (Klondike): with non-empty history, pop the last snapshot
into the live state, `setMoves(m => Math.max(0, m - 1))`, clear the
selection; with empty history, return immediately. -/
def handleUndo (ses : Session) : Session :=
  match ses.history.getLast? with
  | none => ses
  | some previousState =>
    { game := previousState
      history := ses.history.dropLast
      moves := max 0 (ses.moves - 1)
      selected := none }

/-- Selection after an executed action: every mutating path calls
`setSelectedCard(null)` except the recycle and dead branches of
`drawFromStock`. -/
def selAfter (a : Act) (s : GameState) (sel : Option Sel) : Option Sel :=
  match a with
  | .draw _ => if s.stock.isEmpty then sel else none
  | _ => none

/-- One mutating step of the Klondike component: a guarded action that first
pushes `cloneGameState` of the current state onto the history stack. -/
def MStep (p q : Session) : Prop :=
  ∃ a : Act, Guard a p.game ∧
    q = { game := apply a p.game
          history := p.history ++ [cloneGameState p.game]
          moves := p.moves + movesDelta a p.game
          selected := selAfter a p.game p.selected }

/-- One step of the component: a mutating action or `handleUndo`. -/
def Step (p q : Session) : Prop := MStep p q ∨ q = handleUndo p

/-- Sessions reachable by legal transitions from a fresh deal of a shuffled
standard deck. -/
def Reachable (p : Session) : Prop :=
  ∃ deck : List Card, deck.Perm createDeck ∧
    Relation.ReflTransGen Step
      { game := dealGame deck, history := [], moves := 0, selected := none } p

end Klondike

namespace Spider

open SolPlus

/-- The Spider pile aggregate cloned into history by `cloneGameState`
(tableau, stock, completed-suit counter). -/
structure GameState where
  tableau : List (List Card)
  stock : List Card
  completedSuits : Nat
deriving DecidableEq, Repr

def cloneGameState (s : GameState) : GameState :=
  { tableau := s.tableau.map (fun pile => pile.map Klondike.copyCard)
    stock := s.stock.map Klondike.copyCard
    completedSuits := s.completedSuits }

/-- `isValidSequence(cards)`: same suit and descending by exactly 1 along the
list. -/
def isValidSequence : List Card → Bool
  | [] => true
  | [_] => true
  | a :: b :: t => a.suit = b.suit && a.value = b.value + 1 && isValidSequence (b :: t)

/-- `canMoveToTableau(cards, targetPile)`: empty target always accepts;
otherwise the target top must be face-up and exactly one above the moved
head. -/
def canMoveToTableau (cards : List Card) (targetPile : List Card) : Bool :=
  match targetPile.getLast? with
  | none => true
  | some topCard =>
    match cards.head? with
    | none => false
    | some c0 => topCard.faceUp && topCard.value = c0.value + 1

/-- `checkForCompletedSuit(pile)`: `some 13` when the top 13 cards are all
face-up, one suit, and run King down to Ace; otherwise `none`. -/
def checkForCompletedSuit (pile : List Card) : Option Nat :=
  if pile.length < 13 then none
  else
    let last13 := pile.drop (pile.length - 13)
    if !last13.all (·.faceUp) then none
    else
      match last13.head? with
      | none => none
      | some c0 =>
        if !last13.all (fun c => c.suit = c0.suit) then none
        else if (List.range 13).all
            (fun i => (last13.getD i default).value = 13 - (i : Int)) then
          some 13
        else none

/-- The inline completion handling shared by `handleCardClick` and
`handleStockClick`: when the check fires, slice off that many cards and flip
the newly exposed top; report how much the completed-suit counter grows. -/
def resolveCompleted (pile : List Card) : List Card × Nat :=
  match checkForCompletedSuit pile with
  | some n => (flipTopCard (pile.take (pile.length - n)), 1)
  | none => (pile, 0)

/-- The mutating Spider actions: a tableau-to-tableau move through
`handleCardClick`, a move onto an empty pile through `handleEmptyPileClick`,
and the stock deal. -/
inductive Act where
  | move (i k j : Nat)
  | emptyMove (i k j : Nat)
  | deal
deriving DecidableEq, Repr

def guardB (a : Act) (s : GameState) : Bool :=
  match a with
  | .move i k j =>
    i < s.tableau.length && j < s.tableau.length && i ≠ j &&
      k < (s.tableau.getD i []).length &&
      ((s.tableau.getD i []).getD k default).faceUp &&
      isValidSequence ((s.tableau.getD i []).drop k) &&
      !(s.tableau.getD j []).isEmpty &&
      canMoveToTableau ((s.tableau.getD i []).drop k) (s.tableau.getD j [])
  | .emptyMove i k j =>
    i < s.tableau.length && j < s.tableau.length &&
      k < (s.tableau.getD i []).length &&
      ((s.tableau.getD i []).getD k default).faceUp &&
      isValidSequence ((s.tableau.getD i []).drop k) &&
      (s.tableau.getD j []).isEmpty
  | .deal =>
    !s.stock.isEmpty && !(s.tableau.any (fun pile => pile.isEmpty))

def Guard (a : Act) (s : GameState) : Prop := guardB a s = true

instance (a : Act) (s : GameState) : Decidable (Guard a s) := by
  unfold Guard; infer_instance

/-- `handleStockClick` deal loop: `for (i = 0; i < 10 && stock.length > 0)`
pop the stock top onto pile `i`, face-up. -/
def dealLoop : Nat → Nat → List (List Card) → List Card →
    List (List Card) × List Card
  | 0, _, t, stk => (t, stk)
  | fuel + 1, i, t, stk =>
    match stk.getLast? with
    | none => (t, stk)
    | some card =>
      dealLoop fuel (i + 1)
        (t.set i ((t.getD i []) ++ [{ card with faceUp := true }])) stk.dropLast

/-- `handleStockClick` completion sweep: every one of the 10 piles is checked
for a completed suit. -/
def sweepLoop : Nat → Nat → List (List Card) → Nat → List (List Card) × Nat
  | 0, _, t, c => (t, c)
  | fuel + 1, i, t, c =>
    let r := resolveCompleted (t.getD i [])
    sweepLoop fuel (i + 1) (t.set i r.1) (c + r.2)

/-- `handleStockClick`: `none` models the early returns (empty stock, or any
empty tableau pile — the deal is disallowed entirely). -/
def handleStockClick (s : GameState) : Option GameState :=
  if s.stock.isEmpty then none
  else if s.tableau.any (fun pile => pile.isEmpty) then none
  else
    let d := dealLoop 10 0 s.tableau s.stock
    let w := sweepLoop 10 0 d.1 s.completedSuits
    some { tableau := w.1, stock := d.2, completedSuits := w.2 }

/-- Effect of each Spider action. -/
def apply (a : Act) (s : GameState) : GameState :=
  match a with
  | .move i k j =>
    let sourcePile := s.tableau.getD i []
    let targetPile := s.tableau.getD j []
    let cards := sourcePile.drop k
    let t1 := s.tableau.set i (flipTopCard (sourcePile.take k))
    let r := resolveCompleted (targetPile ++ cards)
    { s with
      tableau := t1.set j r.1
      completedSuits := s.completedSuits + r.2 }
  | .emptyMove i k j =>
    let sourcePile := s.tableau.getD i []
    let t1 := s.tableau.set i (flipTopCard (sourcePile.take k))
    { s with tableau := t1.set j (sourcePile.drop k) }
  | .deal => (handleStockClick s).getD s

/-- The 4 + 6 pile Spider deal order: piles 0–3 receive 6 cards, piles 4–9
receive 5, only the last card of each pile face-up. -/
def spiderOrder : List (Nat × Bool) :=
  (List.range 10).flatMap (fun pile =>
    let cardCount := if pile < 4 then 6 else 5
    (List.range cardCount).map (fun i => (pile, i = cardCount - 1)))

/-- The initial Spider state dealt from a shuffled 104-card deck. -/
def dealGame (deck : List Card) : GameState :=
  let d := Klondike.dealFold spiderOrder deck
    [[], [], [], [], [], [], [], [], [], []]
  { tableau := d.1
    stock := d.2.map (fun c => { c with faceUp := false })
    completedSuits := 0 }

/-- Spider component state: pile aggregate, history, move counter,
selection. -/
structure Session where
  game : GameState
  history : List GameState
  moves : Int
  selected : Option (Nat × Nat)
deriving DecidableEq, Repr

/-- `handleUndo` (Spider): with non-empty history, pop the last snapshot into
the live state, clear the selection — and `setMoves(m => m + 1)`: the Spider
undo increments the move counter. -/
def handleUndo (ses : Session) : Session :=
  match ses.history.getLast? with
  | none => ses
  | some previousState =>
    { game := previousState
      history := ses.history.dropLast
      moves := ses.moves + 1
      selected := none }

/-- One mutating Spider step (each path calls `saveToHistory` first and
`setMoves(m => m + 1)`, `setSelectedCard(null)` after). -/
def MStep (p q : Session) : Prop :=
  ∃ a : Act, Guard a p.game ∧
    q = { game := apply a p.game
          history := p.history ++ [cloneGameState p.game]
          moves := p.moves + 1
          selected := none }

def Step (p q : Session) : Prop := MStep p q ∨ q = handleUndo p

/-- Sessions reachable by legal transitions from a fresh Spider deal with one
of the supported suit counts. -/
def Reachable (p : Session) : Prop :=
  ∃ (sc : Nat) (deck : List Card), (sc = 1 ∨ sc = 2 ∨ sc = 4) ∧
    deck.Perm (createSpiderDeck sc) ∧
    Relation.ReflTransGen Step
      { game := dealGame deck, history := [], moves := 0, selected := none } p

end Spider

namespace SolPlus

/-- Multiset of card ids of a pile, the currency of the conservation
arguments. -/
def mids (l : List Card) : Multiset String := (l.map Card.id : Multiset String)

lemma mids_append (l₁ l₂ : List Card) : mids (l₁ ++ l₂) = mids l₁ + mids l₂ := by
  simp [mids]

lemma mids_card (l : List Card) : Multiset.card (mids l) = l.length := by
  simp [mids]

lemma band_elim {a b : Bool} (h : (a && b) = true) : a = true ∧ b = true := by
  constructor <;> simp_all

lemma band_intro {a b : Bool} (ha : a = true) (hb : b = true) :
    (a && b) = true := by simp [ha, hb]

lemma mids_map_faceUp (l : List Card) (b : Bool) :
    mids (l.map (fun c => { c with faceUp := b })) = mids l := by
  simp only [mids, List.map_map]
  rfl

lemma mids_reverse (l : List Card) : mids l.reverse = mids l := by
  simp [mids]

lemma mids_dropLast_getLast (l : List Card) (c : Card) (h : l.getLast? = some c) :
    mids l = mids l.dropLast + mids [c] := by
  conv_lhs => rw [← List.dropLast_append_getLast? c h]
  simp [mids_append]

lemma mids_take_drop (l : List Card) (k : Nat) :
    mids (l.take k) + mids (l.drop k) = mids l := by
  rw [← mids_append, List.take_append_drop]

lemma mids_flipTopCard (l : List Card) : mids (flipTopCard l) = mids l := by
  unfold flipTopCard
  cases h : l.getLast? with
  | none => rfl
  | some c =>
    by_cases hc : c.faceUp
    · simp [hc]
    · simp only [hc, if_neg, Bool.false_eq_true, not_false_iff, if_false]
      rw [mids_dropLast_getLast l c h, mids_append]
      simp [mids]

lemma length_flipTopCard (l : List Card) : (flipTopCard l).length = l.length := by
  have := congrArg Multiset.card (mids_flipTopCard l)
  simpa [mids_card] using this

/-- `flatten`-level exchange of pile `i` of a pile list, stated additively to
avoid multiset subtraction. -/
lemma mids_flatten_set (t : List (List Card)) (i : Nat) (p : List Card)
    (h : i < t.length) :
    mids ((t.set i p).flatten) + mids (t.getD i []) = mids t.flatten + mids p := by
  rw [List.set_eq_take_cons_drop p h]
  conv_rhs => rw [← List.take_append_drop i t, List.drop_eq_getElem_cons h]
  rw [List.getD_eq_getElem _ _ h]
  simp only [List.flatten_append, List.flatten_cons, mids_append]
  abel

lemma getD_set_self (t : List (List Card)) (i : Nat) (p : List Card)
    (h : i < t.length) : (t.set i p).getD i [] = p := by
  rw [List.getD_eq_getElem _ _ (by simpa using h)]
  simp [List.getElem_set_self]

lemma getD_set_ne (t : List (List Card)) (i j : Nat) (p : List Card)
    (h : i ≠ j) : (t.set i p).getD j [] = t.getD j [] := by
  simp [List.getD, List.getElem?_set_ne h]

/-- The adjacency test of a Klondike tableau run, read off
`canPlaceOnTableau`'s non-empty branch: the later card is the opposite color
and exactly one rank below the earlier one. -/
def linkB (a b : Card) : Bool := b.color ≠ a.color && b.value = a.value - 1

/-- An alternating-color strictly-descending-by-1 run. -/
def isRun : List Card → Bool
  | [] => true
  | [_] => true
  | a :: b :: t => linkB a b && isRun (b :: t)

lemma isRun_tail {a : Card} {t : List Card} (h : isRun (a :: t) = true) :
    isRun t = true := by
  cases t with
  | nil => rfl
  | cons b r => exact (band_elim h).2

lemma isRun_take (n : Nat) : ∀ l : List Card, isRun l = true →
    isRun (l.take n) = true := by
  induction n with
  | zero => intro l _; rfl
  | succ m ih =>
    intro l hl
    cases l with
    | nil => rfl
    | cons a t =>
      cases t with
      | nil => cases m <;> rfl
      | cons b r =>
        have hlink := (band_elim hl).1
        have htail := (band_elim hl).2
        cases m with
        | zero => rfl
        | succ m' =>
          have := ih (b :: r) htail
          simp only [List.take_succ_cons] at this ⊢
          exact band_intro hlink this

lemma isRun_drop (n : Nat) : ∀ l : List Card, isRun l = true →
    isRun (l.drop n) = true := by
  induction n with
  | zero => intro l hl; exact hl
  | succ m ih =>
    intro l hl
    cases l with
    | nil => rfl
    | cons a t => exact ih t (isRun_tail hl)

lemma isRun_append {u q : List Card} (hu : isRun u = true) (hq : isRun q = true)
    (hlink : ∀ a b, u.getLast? = some a → q.head? = some b → linkB a b = true) :
    isRun (u ++ q) = true := by
  induction u with
  | nil => simpa using hq
  | cons a t ih =>
    cases t with
    | nil =>
      cases q with
      | nil => rfl
      | cons b r =>
        have := hlink a b rfl rfl
        exact band_intro this hq
    | cons b r =>
      have hlink' : ∀ x y, (b :: r).getLast? = some x → q.head? = some y →
          linkB x y = true := by
        intro x y hx hy
        exact hlink x y (by rw [List.getLast?_cons_cons]; exact hx) hy
      have := ih (isRun_tail hu) hlink'
      exact band_intro (band_elim hu).1 this

/-- Along a run, the value at position `m` is the value at position 0 minus
`m`. -/
lemma isRun_getD_value : ∀ (l : List Card), isRun l = true →
    ∀ m, m < l.length →
      (l.getD m default).value = (l.getD 0 default).value - (m : Int) := by
  intro l
  induction l with
  | nil => intro _ m hm; simp at hm
  | cons a t ih =>
    intro hl m hm
    cases m with
    | zero => simp
    | succ m' =>
      cases t with
      | nil => simp at hm
      | cons b r =>
        have hlink := (band_elim hl).1
        have hval : b.value = a.value - 1 := by
          have := (band_elim hlink).2
          exact_mod_cast by simpa using this
        have := ih (isRun_tail hl) m' (by simpa using Nat.lt_of_succ_lt_succ hm)
        simp only [List.getD_cons_succ, List.getD_cons_zero] at this ⊢
        rw [this, hval]
        push_cast
        ring

end SolPlus

namespace SolPlus

def AllDown (l : List Card) : Prop := ∀ c ∈ l, c.faceUp = false

def AllUp (l : List Card) : Prop := ∀ c ∈ l, c.faceUp = true

/-- Structural well-formedness of a Klondike tableau pile: a face-down
portion at the base, topped by a face-up alternating descending run. -/
def PileOk (l : List Card) : Prop :=
  ∃ d u, l = d ++ u ∧ AllDown d ∧ AllUp u ∧ isRun u = true

lemma allDown_subset {l l' : List Card} (h : AllDown l) (hs : l' ⊆ l) :
    AllDown l' := fun c hc => h c (hs hc)

lemma allUp_subset {l l' : List Card} (h : AllUp l) (hs : l' ⊆ l) :
    AllUp l' := fun c hc => h c (hs hc)

lemma allUp_append {l₁ l₂ : List Card} (h₁ : AllUp l₁) (h₂ : AllUp l₂) :
    AllUp (l₁ ++ l₂) := by
  intro c hc
  rcases List.mem_append.mp hc with h | h
  · exact h₁ c h
  · exact h₂ c h

lemma allDown_nil : AllDown [] := fun c hc => absurd hc (List.not_mem_nil c)

lemma allUp_nil : AllUp [] := fun c hc => absurd hc (List.not_mem_nil c)

lemma pileOk_nil : PileOk [] := ⟨[], [], rfl, allDown_nil, allUp_nil, rfl⟩

lemma pileOk_of_allDown {l : List Card} (h : AllDown l) : PileOk l :=
  ⟨l, [], by simp, h, allUp_nil, rfl⟩

lemma pileOk_of_allUp {l : List Card} (h : AllUp l) (hr : isRun l = true) :
    PileOk l := ⟨[], l, by simp, allDown_nil, h, hr⟩

lemma pileOk_take {l : List Card} (h : PileOk l) (n : Nat) :
    PileOk (l.take n) := by
  obtain ⟨d, u, rfl, hd, hu, hr⟩ := h
  exact ⟨d.take n, u.take (n - d.length), List.take_append_eq_append_take,
    allDown_subset hd (List.take_subset _ _),
    allUp_subset hu (List.take_subset _ _), isRun_take _ _ hr⟩

lemma pileOk_dropLast {l : List Card} (h : PileOk l) : PileOk l.dropLast := by
  rw [List.dropLast_eq_take]
  exact pileOk_take h _

lemma pileOk_flipTopCard {l : List Card} (h : PileOk l) :
    PileOk (flipTopCard l) := by
  unfold flipTopCard
  cases hlast : l.getLast? with
  | none => exact h
  | some c =>
    by_cases hc : c.faceUp
    · simpa [hc] using h
    · simp only [hc, Bool.false_eq_true, if_false]
      obtain ⟨d, u, rfl, hd, hu, hr⟩ := h
      have hu_nil : u = [] := by
        by_contra hne
        rw [List.getLast?_append_of_ne_nil d hne] at hlast
        exact hc (hu c (List.mem_of_mem_getLast? hlast))
      subst hu_nil
      rw [List.append_nil]
      refine ⟨d.dropLast, [{ c with faceUp := true }], rfl,
        allDown_subset hd (List.dropLast_sublist _).subset, ?_, rfl⟩
      intro x hx
      simp only [List.mem_singleton] at hx
      subst hx
      rfl

/-- If position `k` of a well-formed pile is face-up, everything from `k` to
the top is face-up and forms a run. -/
lemma pileOk_faceUp_split {l : List Card} {k : Nat} (h : PileOk l)
    (hk : k < l.length) (hup : (l.getD k default).faceUp = true) :
    AllUp (l.drop k) ∧ isRun (l.drop k) = true := by
  obtain ⟨d, u, rfl, hd, hu, hr⟩ := h
  have hdk : d.length ≤ k := by
    by_contra hlt
    push_neg at hlt
    have hmem : (d ++ u).getD k default ∈ d := by
      rw [List.getD_eq_getElem _ _ hk, List.getElem_append_left hlt]
      exact List.getElem_mem _
    rw [hd _ hmem] at hup
    cases hup
  have hdrop : (d ++ u).drop k = u.drop (k - d.length) := by
    rw [List.drop_append_eq_append_drop, List.drop_eq_nil_iff.mpr hdk,
      List.nil_append]
  rw [hdrop]
  exact ⟨allUp_subset hu (List.drop_subset _ _), isRun_drop _ _ hr⟩

/-- Appending a non-empty face-up run accepted by `canPlaceOnTableau`
preserves pile well-formedness. -/
lemma pileOk_append {p q : List Card} (hp : PileOk p) (hq_up : AllUp q)
    (hq_run : isRun q = true)
    (hlink : Klondike.canPlaceOnTableau (q.getD 0 default) p = true)
    (hq_ne : q ≠ []) : PileOk (p ++ q) := by
  unfold Klondike.canPlaceOnTableau at hlink
  cases hlast : p.getLast? with
  | none =>
    have : p = [] := List.getLast?_eq_none_iff.mp hlast
    subst this
    exact pileOk_of_allUp hq_up hq_run
  | some top =>
    rw [hlast] at hlink
    have htop_up : top.faceUp = true := (band_elim (band_elim hlink).1).1
    have hlink' : linkB top (q.getD 0 default) = true := by
      unfold linkB
      exact band_intro (band_elim (band_elim hlink).1).2 (band_elim hlink).2
    obtain ⟨d, u, rfl, hd, hu, hr⟩ := hp
    have hu_ne : u ≠ [] := by
      intro hnil
      subst hnil
      rw [List.append_nil] at hlast
      have : top ∈ d := List.mem_of_mem_getLast? hlast
      rw [hd _ this] at htop_up
      cases htop_up
    have hulast : u.getLast? = some top := by
      rw [List.getLast?_append_of_ne_nil d hu_ne] at hlast
      exact hlast
    have hqhead : q.head? = some (q.getD 0 default) := by
      cases q with
      | nil => exact absurd rfl hq_ne
      | cons x t => rfl
    refine ⟨d, u ++ q, by rw [List.append_assoc], hd,
      allUp_append hu hq_up, ?_⟩
    refine isRun_append hr hq_run ?_
    intro a b ha hb
    rw [hulast] at ha
    rw [hqhead] at hb
    cases ha
    cases hb
    exact hlink'

end SolPlus

namespace SolPlus

lemma getLastD_mem {l : List Card} (h : l ≠ []) : l.getLast?.getD default ∈ l := by
  cases hl : l.getLast? with
  | none => exact absurd (List.getLast?_eq_none_iff.mp hl) h
  | some c => simpa using List.mem_of_mem_getLast? hl

lemma getLast?_eq_getLastD {l : List Card} (h : l ≠ []) :
    l.getLast? = some (l.getLast?.getD default) := by
  cases hl : l.getLast? with
  | none => exact absurd (List.getLast?_eq_none_iff.mp hl) h
  | some c => rfl

lemma getD_mem_of_lt {t : List (List Card)} {j : Nat} (h : j < t.length) :
    t.getD j [] ∈ t := by
  rw [List.getD_eq_getElem _ _ h]
  exact List.getElem_mem _

lemma getD_drop (l : List Card) (k m : Nat) (h : k + m < l.length) :
    (l.drop k).getD m default = l.getD (k + m) default := by
  have hm : m < (l.drop k).length := by simp; omega
  rw [List.getD_eq_getElem _ _ hm, List.getD_eq_getElem _ _ h]
  simp [List.getElem_drop]

lemma drop_ne_nil {l : List Card} {k : Nat} (h : k < l.length) :
    l.drop k ≠ [] := by
  intro hnil
  have := congrArg List.length hnil
  simp at this
  omega

lemma allUp_map_true (l : List Card) :
    AllUp (l.map (fun c => { c with faceUp := true })) := by
  intro c hc
  obtain ⟨c', _, rfl⟩ := List.mem_map.mp hc
  rfl

lemma allUp_singleton {c : Card} (h : c.faceUp = true) : AllUp [c] := by
  intro x hx
  simp only [List.mem_singleton] at hx
  subst hx
  exact h

lemma mids_cancel {a b c : Multiset String} (h : a + c = b + c) : a = b :=
  add_right_cancel h

end SolPlus

namespace Klondike

open SolPlus

/-- All cards of a Klondike state, across tableau, foundations, stock and
waste. -/
def allCards (s : GameState) : List Card :=
  s.tableau.flatten ++ s.foundations.flatten ++ s.stock ++ s.waste

/-- The structural reachability invariant of the Klondike engine: every
tableau pile is a face-down base under a face-up alternating descending run,
and all waste and foundation cards are face-up. -/
structure Inv (s : GameState) : Prop where
  piles : ∀ p ∈ s.tableau, PileOk p
  wasteUp : AllUp s.waste
  fdnUp : ∀ p ∈ s.foundations, AllUp p

/-- Appending a single card accepted by `canPlaceOnTableau` onto pile `j`
keeps every tableau pile well-formed. -/
lemma piles_set_append_card {s : GameState} {j : Nat} {card : Card}
    (hs : Inv s) (hj : j < s.tableau.length) (hcup : card.faceUp = true)
    (hcan : canPlaceOnTableau card (s.tableau.getD j []) = true) :
    ∀ p ∈ s.tableau.set j ((s.tableau.getD j []) ++ [card]), PileOk p := by
  intro p hp
  rcases List.mem_or_eq_of_mem_set hp with h | h
  · exact hs.piles p h
  · subst h
    exact pileOk_append (hs.piles _ (getD_mem_of_lt hj)) (allUp_singleton hcup)
      rfl hcan (by simp)

lemma inv_apply {s : GameState} {a : Act} (hs : Inv s) (hg : Guard a s) :
    Inv (apply a s) := by
  cases a with
  | draw n =>
    unfold apply
    by_cases h1 : s.stock.isEmpty
    · by_cases h2 : s.waste.isEmpty
      · simpa [h1, h2] using hs
      · simp only [h1, h2, if_true, if_false]
        exact ⟨hs.piles, allUp_nil, hs.fdnUp⟩
    · simp only [h1, if_false]
      exact ⟨hs.piles, allUp_append hs.wasteUp (allUp_map_true _), hs.fdnUp⟩
  | wasteToTableau j =>
    simp only [Guard, guardB, Bool.and_eq_true, Bool.not_eq_true',
      List.isEmpty_eq_false, decide_eq_true_eq] at hg
    obtain ⟨⟨hw, hj⟩, hcan⟩ := hg
    refine ⟨?_, allUp_subset hs.wasteUp (List.dropLast_sublist _).subset, hs.fdnUp⟩
    exact piles_set_append_card hs hj (hs.wasteUp _ (getLastD_mem hw)) hcan
  | tableauToTableau i k j =>
    simp only [Guard, guardB, Bool.and_eq_true, decide_eq_true_eq] at hg
    obtain ⟨⟨⟨⟨hi, hj⟩, hk⟩, hup⟩, hcan⟩ := hg
    have hsplit := pileOk_faceUp_split (hs.piles _ (getD_mem_of_lt hi)) hk hup
    have hB : PileOk ((s.tableau.getD j []) ++ (s.tableau.getD i []).drop k) := by
      refine pileOk_append (hs.piles _ (getD_mem_of_lt hj)) hsplit.1 hsplit.2
        ?_ (drop_ne_nil hk)
      rw [getD_drop _ _ 0 (by omega)]
      simpa using hcan
    refine ⟨?_, hs.wasteUp, hs.fdnUp⟩
    intro p hp
    rcases List.mem_or_eq_of_mem_set hp with h | h
    · rcases List.mem_or_eq_of_mem_set h with h' | h'
      · rcases List.mem_or_eq_of_mem_set h' with h'' | h''
        · exact hs.piles p h''
        · subst h''
          exact pileOk_take (hs.piles _ (getD_mem_of_lt hi)) k
      · subst h'
        exact hB
    · subst h
      apply pileOk_flipTopCard
      by_cases hij : i = j
      · subst hij
        rw [getD_set_self _ _ _ (by simpa using hi)]
        exact hB
      · rw [getD_set_ne _ _ _ _ (Ne.symm hij),
          getD_set_self _ _ _ (by simpa using hi)]
        exact pileOk_take (hs.piles _ (getD_mem_of_lt hi)) k
  | foundationToTableau f j =>
    simp only [Guard, guardB, Bool.and_eq_true, Bool.not_eq_true',
      List.isEmpty_eq_false, decide_eq_true_eq] at hg
    obtain ⟨⟨⟨⟨hf, hfne⟩, hj⟩, hjne⟩, hcan⟩ := hg
    have hcup : ((s.foundations.getD f []).getLast?.getD default).faceUp = true :=
      hs.fdnUp _ (getD_mem_of_lt hf) _ (getLastD_mem hfne)
    refine ⟨piles_set_append_card hs hj hcup hcan, hs.wasteUp, ?_⟩
    intro p hp
    rcases List.mem_or_eq_of_mem_set hp with h | h
    · exact hs.fdnUp p h
    · subst h
      exact allUp_subset (hs.fdnUp _ (getD_mem_of_lt hf))
        (List.dropLast_sublist _).subset
  | wasteToFoundation f =>
    simp only [Guard, guardB, Bool.and_eq_true, Bool.not_eq_true',
      List.isEmpty_eq_false, decide_eq_true_eq] at hg
    obtain ⟨⟨hw, hf⟩, hcan⟩ := hg
    refine ⟨hs.piles, allUp_subset hs.wasteUp (List.dropLast_sublist _).subset, ?_⟩
    intro p hp
    rcases List.mem_or_eq_of_mem_set hp with h | h
    · exact hs.fdnUp p h
    · subst h
      exact allUp_append (hs.fdnUp _ (getD_mem_of_lt hf))
        (allUp_singleton (hs.wasteUp _ (getLastD_mem hw)))
  | tableauToFoundation i f =>
    simp only [Guard, guardB, Bool.and_eq_true, Bool.not_eq_true',
      List.isEmpty_eq_false, decide_eq_true_eq] at hg
    obtain ⟨⟨⟨⟨hi, hine⟩, hup⟩, hf⟩, hcan⟩ := hg
    constructor
    · intro p hp
      rcases List.mem_or_eq_of_mem_set hp with h | h
      · exact hs.piles p h
      · subst h
        exact pileOk_flipTopCard (pileOk_dropLast (hs.piles _ (getD_mem_of_lt hi)))
    · exact hs.wasteUp
    · intro p hp
      rcases List.mem_or_eq_of_mem_set hp with h | h
      · exact hs.fdnUp p h
      · subst h
        exact allUp_append (hs.fdnUp _ (getD_mem_of_lt hf)) (allUp_singleton hup)

end Klondike

namespace SolPlus

lemma getLastD_eq_getD (l : List Card) :
    l.getLast?.getD default = l.getD (l.length - 1) default := by
  rw [List.getLast?_eq_getElem? l, List.getD, List.get?_eq_getElem?]

end SolPlus

namespace Klondike

open SolPlus

/-- With the structural invariant, the guard of a tableau-to-tableau move can
never fire with source pile equal to target pile: a run descends, while
`canPlaceOnTableau` would need the moved card to sit one below the same
pile's top. -/
lemma tableauToTableau_ne {s : GameState} {i k j : Nat} (hs : Inv s)
    (hg : Guard (.tableauToTableau i k j) s) : i ≠ j := by
  intro hij
  subst hij
  simp only [Guard, guardB, Bool.and_eq_true, decide_eq_true_eq] at hg
  obtain ⟨⟨⟨⟨hi, _⟩, hk⟩, hup⟩, hcan⟩ := hg
  have hne : s.tableau.getD i [] ≠ [] := by
    intro h0
    rw [h0] at hk
    simp at hk
  unfold canPlaceOnTableau at hcan
  rw [getLast?_eq_getLastD hne] at hcan
  have hval : ((s.tableau.getD i []).getD k default).value =
      ((s.tableau.getD i []).getLast?.getD default).value - 1 :=
    of_decide_eq_true (band_elim hcan).2
  have hsplit := pileOk_faceUp_split (hs.piles _ (getD_mem_of_lt hi)) hk hup
  set l := s.tableau.getD i [] with hl
  have hn : 0 < (l.drop k).length := by simp; omega
  have hrunval := isRun_getD_value _ hsplit.2 ((l.drop k).length - 1)
    (by omega)
  rw [getD_drop _ _ _ (by simp; omega), getD_drop _ _ _ (by omega)] at hrunval
  have hlen : (l.drop k).length = l.length - k := by simp
  have hidx : k + ((l.drop k).length - 1) = l.length - 1 := by omega
  rw [hidx] at hrunval
  rw [getLastD_eq_getD] at hval
  simp only [Nat.add_zero] at hrunval
  omega

end Klondike

namespace SolPlus

/-- Appending cards to pile `j` adds exactly their ids to the flattened
pile-list. -/
lemma set_append_mids (t : List (List Card)) (j : Nat) (q : List Card)
    (h : j < t.length) :
    mids ((t.set j ((t.getD j []) ++ q)).flatten) = mids t.flatten + mids q := by
  have e := mids_flatten_set t j ((t.getD j []) ++ q) h
  rw [mids_append] at e
  have e2 : mids ((t.set j ((t.getD j []) ++ q)).flatten) + mids (t.getD j []) =
      (mids t.flatten + mids q) + mids (t.getD j []) := by
    rw [e]
    abel
  exact mids_cancel e2

/-- Dropping the top card of pile `f` (with an optional flip of the newly
exposed top, which keeps ids) removes exactly that card's id. -/
lemma set_flip_dropLast_mids (t : List (List Card)) (f : Nat)
    (h : f < t.length) (hne : t.getD f [] ≠ []) :
    mids ((t.set f (flipTopCard (t.getD f []).dropLast)).flatten) +
      mids [(t.getD f []).getLast?.getD default] = mids t.flatten := by
  have e := mids_flatten_set t f (flipTopCard (t.getD f []).dropLast) h
  rw [mids_flipTopCard] at e
  have e3 := mids_dropLast_getLast (t.getD f []) _ (getLast?_eq_getLastD hne)
  have e4 : (mids ((t.set f (flipTopCard (t.getD f []).dropLast)).flatten) +
      mids [(t.getD f []).getLast?.getD default]) +
      mids ((t.getD f []).dropLast) =
      mids t.flatten + mids ((t.getD f []).dropLast) := by
    rw [← e, e3]
    abel
  exact mids_cancel e4

/-- A plain `dropLast` on pile `f` removes exactly the top card's id. -/
lemma set_dropLast_mids (t : List (List Card)) (f : Nat)
    (h : f < t.length) (hne : t.getD f [] ≠ []) :
    mids ((t.set f ((t.getD f []).dropLast)).flatten) +
      mids [(t.getD f []).getLast?.getD default] = mids t.flatten := by
  have e := mids_flatten_set t f ((t.getD f []).dropLast) h
  have e3 := mids_dropLast_getLast (t.getD f []) _ (getLast?_eq_getLastD hne)
  have e4 : (mids ((t.set f ((t.getD f []).dropLast)).flatten) +
      mids [(t.getD f []).getLast?.getD default]) +
      mids ((t.getD f []).dropLast) =
      mids t.flatten + mids ((t.getD f []).dropLast) := by
    rw [← e, e3]
    abel
  exact mids_cancel e4

/-- Flipping the top of pile `i` in place keeps the id multiset. -/
lemma set_flip_self_mids (t : List (List Card)) (i : Nat) (h : i < t.length) :
    mids ((t.set i (flipTopCard (t.getD i []))).flatten) = mids t.flatten := by
  have e := mids_flatten_set t i (flipTopCard (t.getD i [])) h
  rw [mids_flipTopCard] at e
  exact mids_cancel e

end SolPlus

namespace Klondike

open SolPlus

lemma mids_allCards (s : GameState) :
    mids (allCards s) = mids s.tableau.flatten + mids s.foundations.flatten +
      mids s.stock + mids s.waste := by
  simp only [allCards, mids_append]

/-- Every guarded Klondike action preserves the multiset of card ids: no card
is created or destroyed by a legal transition. -/
lemma mids_apply {s : GameState} {a : Act} (hs : Inv s) (hg : Guard a s) :
    mids (allCards (apply a s)) = mids (allCards s) := by
  cases a with
  | draw n =>
    unfold apply
    by_cases h1 : s.stock.isEmpty
    · by_cases h2 : s.waste.isEmpty
      · simp [h1, h2]
      · have hstock : s.stock = [] := List.isEmpty_iff.mp h1
        rw [Bool.not_eq_true] at h2
        simp only [h1, h2, Bool.false_eq_true, eq_self_iff_true, if_true,
          if_false]
        rw [mids_allCards, mids_allCards, mids_reverse, mids_map_faceUp, hstock]
        abel
    · rw [Bool.not_eq_true] at h1
      simp only [h1, Bool.false_eq_true, if_false]
      rw [mids_allCards, mids_allCards]
      simp only [mids_append, mids_map_faceUp]
      rw [← mids_take_drop s.stock (s.stock.length - min n s.stock.length)]
      abel
  | wasteToTableau j =>
    simp only [Guard, guardB, Bool.and_eq_true, Bool.not_eq_true',
      List.isEmpty_eq_false, decide_eq_true_eq] at hg
    obtain ⟨⟨hw, hj⟩, _⟩ := hg
    unfold apply
    rw [mids_allCards, mids_allCards, set_append_mids _ _ _ hj,
      mids_dropLast_getLast s.waste _ (getLast?_eq_getLastD hw)]
    abel
  | tableauToTableau i k j =>
    have hij := tableauToTableau_ne hs hg
    simp only [Guard, guardB, Bool.and_eq_true, decide_eq_true_eq] at hg
    obtain ⟨⟨⟨⟨hi, hj⟩, hk⟩, _⟩, _⟩ := hg
    unfold apply
    rw [mids_allCards, mids_allCards]
    have hA := mids_flatten_set s.tableau i ((s.tableau.getD i []).take k) hi
    have hj' : j < (s.tableau.set i ((s.tableau.getD i []).take k)).length := by
      simpa using hj
    have hB := mids_flatten_set (s.tableau.set i ((s.tableau.getD i []).take k))
      j ((s.tableau.getD j []) ++ (s.tableau.getD i []).drop k) hj'
    rw [getD_set_ne _ _ _ _ hij] at hB
    set t1 := (s.tableau.set i ((s.tableau.getD i []).take k)).set j
      ((s.tableau.getD j []) ++ (s.tableau.getD i []).drop k) with ht1
    have hi' : i < t1.length := by
      rw [ht1]
      simpa using hi
    rw [set_flip_self_mids t1 i hi']
    have key : mids t1.flatten +
        (mids (s.tableau.getD j []) + mids (s.tableau.getD i [])) =
        mids s.tableau.flatten +
        (mids (s.tableau.getD j []) + mids (s.tableau.getD i [])) := by
      calc mids t1.flatten +
          (mids (s.tableau.getD j []) + mids (s.tableau.getD i []))
          = (mids t1.flatten + mids (s.tableau.getD j [])) +
            mids (s.tableau.getD i []) := by abel
        _ = (mids ((s.tableau.set i ((s.tableau.getD i []).take k)).flatten) +
            mids ((s.tableau.getD j []) ++ (s.tableau.getD i []).drop k)) +
            mids (s.tableau.getD i []) := by rw [hB]
        _ = (mids ((s.tableau.set i ((s.tableau.getD i []).take k)).flatten) +
            mids (s.tableau.getD i [])) +
            mids ((s.tableau.getD j []) ++ (s.tableau.getD i []).drop k) := by
            abel
        _ = (mids s.tableau.flatten + mids ((s.tableau.getD i []).take k)) +
            mids ((s.tableau.getD j []) ++ (s.tableau.getD i []).drop k) := by
            rw [hA]
        _ = mids s.tableau.flatten +
            ((mids ((s.tableau.getD i []).take k) +
              mids ((s.tableau.getD i []).drop k)) +
             mids (s.tableau.getD j [])) := by rw [mids_append]; abel
        _ = mids s.tableau.flatten +
            (mids (s.tableau.getD i []) + mids (s.tableau.getD j [])) := by
            rw [mids_take_drop]
        _ = mids s.tableau.flatten +
            (mids (s.tableau.getD j []) + mids (s.tableau.getD i [])) := by abel
    rw [mids_cancel key]
  | foundationToTableau f j =>
    simp only [Guard, guardB, Bool.and_eq_true, Bool.not_eq_true',
      List.isEmpty_eq_false, decide_eq_true_eq] at hg
    obtain ⟨⟨⟨⟨hf, hfne⟩, hj⟩, _⟩, _⟩ := hg
    unfold apply
    rw [mids_allCards, mids_allCards, set_append_mids _ _ _ hj,
      ← set_dropLast_mids s.foundations f hf hfne]
    abel
  | wasteToFoundation f =>
    simp only [Guard, guardB, Bool.and_eq_true, Bool.not_eq_true',
      List.isEmpty_eq_false, decide_eq_true_eq] at hg
    obtain ⟨⟨hw, hf⟩, _⟩ := hg
    unfold apply
    rw [mids_allCards, mids_allCards, set_append_mids _ _ _ hf,
      mids_dropLast_getLast s.waste _ (getLast?_eq_getLastD hw)]
    abel
  | tableauToFoundation i f =>
    simp only [Guard, guardB, Bool.and_eq_true, Bool.not_eq_true',
      List.isEmpty_eq_false, decide_eq_true_eq] at hg
    obtain ⟨⟨⟨⟨hi, hine⟩, _⟩, hf⟩, _⟩ := hg
    unfold apply
    rw [mids_allCards, mids_allCards, set_append_mids _ _ _ hf,
      ← set_flip_dropLast_mids s.tableau i hi hine]
    abel

end Klondike

namespace SolPlus

lemma allDown_append {l₁ l₂ : List Card} (h₁ : AllDown l₁) (h₂ : AllDown l₂) :
    AllDown (l₁ ++ l₂) := by
  intro c hc
  rcases List.mem_append.mp hc with h | h
  · exact h₁ c h
  · exact h₂ c h

lemma allDown_getD {t : List (List Card)} (h : ∀ p ∈ t, AllDown p) (j : Nat) :
    AllDown (t.getD j []) := by
  by_cases hj : j < t.length
  · exact h _ (getD_mem_of_lt hj)
  · rw [List.getD_eq_default _ _ (by omega)]
    exact allDown_nil

lemma mids_cons (c : Card) (l : List Card) :
    mids (c :: l) = mids [c] + mids l := by
  simp [mids]

lemma mids_singleton_with (c : Card) (b : Bool) :
    mids [{ c with faceUp := b }] = mids [c] := by
  simp [mids]

end SolPlus

namespace Klondike

open SolPlus

/-- Through a sequential deal, provided every column's face-up entry is the
last entry for that column, all piles stay structurally well-formed: a column
is entirely face-down until its final, face-up card arrives. -/
lemma dealFold_pileOk : ∀ (ord : List (Nat × Bool)) (deck : List Card)
    (t : List (List Card)),
    List.Pairwise (fun a b => a.1 = b.1 → a.2 = false) ord →
    (∀ p ∈ t, PileOk p) →
    (∀ e ∈ ord, AllDown (t.getD e.1 [])) →
    ∀ p ∈ (dealFold ord deck t).1, PileOk p := by
  intro ord
  induction ord with
  | nil =>
    intro deck t _ hp _
    simpa [dealFold] using hp
  | cons e rest ih =>
    intro deck t hpair hp hdown
    obtain ⟨col, isLast⟩ := e
    cases deck with
    | nil => simpa [dealFold] using hp
    | cons card deckRest =>
      simp only [dealFold]
      have hcold : AllDown (t.getD col []) := hdown (col, isLast) (by simp)
      have hpair' := List.pairwise_cons.mp hpair
      refine ih deckRest _ hpair'.2 ?_ ?_
      · intro p hp'
        rcases List.mem_or_eq_of_mem_set hp' with h | h
        · exact hp p h
        · subst h
          cases isLast with
          | false =>
            refine pileOk_of_allDown (allDown_append hcold ?_)
            intro c hc
            simp only [List.mem_singleton] at hc
            subst hc
            rfl
          | true =>
            refine ⟨t.getD col [], [{ card with faceUp := true }], rfl, hcold,
              ?_, rfl⟩
            intro c hc
            simp only [List.mem_singleton] at hc
            subst hc
            rfl
      · intro e' he'
        by_cases hcol : e'.1 = col
        · have hfalse : isLast = false := hpair'.1 e' he' hcol.symm
          subst hfalse
          by_cases hlen : col < t.length
          · rw [hcol, getD_set_self _ _ _ hlen]
            refine allDown_append hcold ?_
            intro c hc
            simp only [List.mem_singleton] at hc
            subst hc
            rfl
          · rw [List.set_eq_of_length_le (by omega)]
            rw [hcol]
            exact hcold
        · rw [getD_set_ne _ _ _ _ (fun he => hcol he.symm)]
          exact hdown e' (by simp [he'])

/-- A sequential deal only moves cards from the deck into the piles: id
conservation. -/
lemma dealFold_mids : ∀ (ord : List (Nat × Bool)) (deck : List Card)
    (t : List (List Card)), (∀ e ∈ ord, e.1 < t.length) →
    mids ((dealFold ord deck t).1.flatten) + mids (dealFold ord deck t).2 =
      mids t.flatten + mids deck := by
  intro ord
  induction ord with
  | nil => intro deck t _; simp [dealFold]
  | cons e rest ih =>
    intro deck t hlt
    obtain ⟨col, isLast⟩ := e
    cases deck with
    | nil => simp [dealFold]
    | cons card deckRest =>
      simp only [dealFold]
      have hcol : col < t.length := hlt (col, isLast) (by simp)
      have hrest : ∀ e ∈ rest, e.1 <
          (t.set col ((t.getD col []) ++ [{ card with faceUp := isLast }])).length := by
        intro e he
        rw [List.length_set]
        exact hlt e (by simp [he])
      rw [ih deckRest _ hrest, set_append_mids _ _ _ hcol,
        mids_singleton_with, mids_cons]
      abel

lemma dealFold_length : ∀ (ord : List (Nat × Bool)) (deck : List Card)
    (t : List (List Card)), (dealFold ord deck t).1.length = t.length := by
  intro ord
  induction ord with
  | nil => intro deck t; rfl
  | cons e rest ih =>
    intro deck t
    obtain ⟨col, isLast⟩ := e
    cases deck with
    | nil => rfl
    | cons card deckRest =>
      simp only [dealFold]
      rw [ih]
      exact List.length_set ..

end Klondike

namespace Klondike

open SolPlus

lemma inv_dealGame (deck : List Card) : Inv (dealGame deck) := by
  refine ⟨?_, ?_, ?_⟩
  · intro p hp
    refine dealFold_pileOk dealOrder deck _ (by decide) ?_ ?_ p hp
    · intro q hq
      have : q = [] := by
        simp only [List.mem_cons, List.not_mem_nil, or_false] at hq
        tauto
      subst this
      exact pileOk_nil
    · intro e _
      apply allDown_getD
      intro q hq
      have : q = [] := by
        simp only [List.mem_cons, List.not_mem_nil, or_false] at hq
        tauto
      subst this
      exact allDown_nil
  · intro c hc
    cases hc
  · intro p hp
    have : p = [] := by
      simp only [dealGame, List.mem_cons, List.not_mem_nil, or_false] at hp
      tauto
    subst this
    exact allUp_nil

lemma mids_dealGame (deck : List Card) :
    mids (allCards (dealGame deck)) = mids deck := by
  have h := dealFold_mids dealOrder deck [[], [], [], [], [], [], []] (by decide)
  rw [mids_allCards]
  show mids ((dealFold dealOrder deck _).1.flatten) + mids [].flatten +
    mids ((dealFold dealOrder deck _).2.map (fun c => { c with faceUp := false })) +
    mids [] = mids deck
  rw [mids_map_faceUp]
  have hflat : mids (([] : List (List Card)).flatten) = 0 := rfl
  have hnil : mids ([] : List Card) = 0 := rfl
  rw [hflat, hnil, add_zero, add_zero, h]
  rfl

lemma copyCard_eq (c : Card) : copyCard c = c := rfl

lemma map_copyCard (l : List Card) : l.map copyCard = l := by
  have h : copyCard = id := rfl
  rw [h, List.map_id]

lemma cloneGameState_eq (s : GameState) : cloneGameState s = s := by
  simp [cloneGameState, map_copyCard]

/-- Combined invariant carried through the session-level induction: the live
state and every history snapshot are structurally well-formed and have the
original 52 card ids. -/
def Full (base : Multiset String) (p : Session) : Prop :=
  (Inv p.game ∧ mids (allCards p.game) = base) ∧
  ∀ t ∈ p.history, Inv t ∧ mids (allCards t) = base

lemma step_full {base : Multiset String} {p q : Session} (hb : Full base p)
    (h : Step p q) : Full base q := by
  rcases h with ⟨a, hg, rfl⟩ | rfl
  · refine ⟨⟨inv_apply hb.1.1 hg, (mids_apply hb.1.1 hg).trans hb.1.2⟩, ?_⟩
    intro t ht
    simp only [List.mem_append, List.mem_singleton] at ht
    rcases ht with h | h
    · exact hb.2 t h
    · rw [h, cloneGameState_eq]
      exact hb.1
  · unfold handleUndo
    cases hl : p.history.getLast? with
    | none => exact hb
    | some t =>
      refine ⟨hb.2 t (List.mem_of_mem_getLast? hl), ?_⟩
      intro u hu
      exact hb.2 u ((List.dropLast_sublist _).subset hu)

lemma reachable_full {p : Session} (hr : Reachable p) :
    Full (mids createDeck) p := by
  obtain ⟨deck, hperm, hsteps⟩ := hr
  have hbase : mids deck = mids createDeck := by
    exact Multiset.coe_eq_coe.mpr (hperm.map Card.id)
  have hinit : Full (mids createDeck)
      { game := dealGame deck, history := [], moves := 0, selected := none } := by
    refine ⟨⟨inv_dealGame deck, ?_⟩, ?_⟩
    · rw [mids_dealGame]
      exact hbase
    · intro t ht
      cases ht
  clear hperm hbase
  induction hsteps with
  | refl => exact hinit
  | tail _ hstep ih => exact step_full ih hstep

end Klondike

namespace Spider

open SolPlus

/-- All cards of a Spider state: the ten tableau piles and the stock.
Completed suits are removed from play and tracked only by the counter. -/
def allS (s : GameState) : List Card := s.tableau.flatten ++ s.stock

lemma mids_allS (s : GameState) :
    mids (allS s) = mids s.tableau.flatten + mids s.stock := by
  simp [allS, mids_append]

lemma checkForCompletedSuit_some {p : List Card} {n : Nat}
    (h : checkForCompletedSuit p = some n) : n = 13 ∧ 13 ≤ p.length := by
  simp only [checkForCompletedSuit] at h
  split at h
  · cases h
  · rename_i hlen
    split at h
    · cases h
    · split at h
      · cases h
      · split at h
        · cases h
        · split at h
          · cases h
            exact ⟨rfl, by omega⟩
          · cases h

/-- The completion handler removes either nothing or exactly 13 cards, and
only bumps the counter when it removes them. -/
lemma resolveCompleted_facts (p : List Card) :
    mids (resolveCompleted p).1 ≤ mids p ∧
    (resolveCompleted p).1.length + 13 * (resolveCompleted p).2 = p.length := by
  unfold resolveCompleted
  cases h : checkForCompletedSuit p with
  | none => simp
  | some n =>
    obtain ⟨hn, hlen⟩ := checkForCompletedSuit_some h
    subst hn
    constructor
    · show mids (flipTopCard (p.take (p.length - 13))) ≤ mids p
      rw [mids_flipTopCard]
      exact Multiset.coe_le.mpr ((List.take_sublist _ _).map Card.id).subperm
    · show (flipTopCard (p.take (p.length - 13))).length + 13 * 1 = p.length
      rw [length_flipTopCard, List.length_take]
      omega

lemma resolveCompleted_nil : resolveCompleted [] = ([], 0) := by decide

end Spider

namespace Spider

open SolPlus

lemma dealLoop_facts : ∀ (fuel i : Nat) (t : List (List Card)) (stk : List Card),
    (∀ m, m < fuel → i + m < t.length) →
    mids ((dealLoop fuel i t stk).1.flatten) + mids (dealLoop fuel i t stk).2 =
      mids t.flatten + mids stk ∧
    (dealLoop fuel i t stk).1.length = t.length := by
  intro fuel
  induction fuel with
  | zero => intro i t stk _; exact ⟨rfl, rfl⟩
  | succ f ih =>
    intro i t stk hb
    simp only [dealLoop]
    cases hl : stk.getLast? with
    | none => exact ⟨rfl, rfl⟩
    | some card =>
      have hi : i < t.length := by
        have := hb 0 (by omega)
        omega
      have hb' : ∀ m, m < f → (i + 1) + m <
          (t.set i ((t.getD i []) ++ [{ card with faceUp := true }])).length := by
        rw [List.length_set]
        intro m hm
        have := hb (m + 1) (by omega)
        omega
      obtain ⟨e1, e2⟩ := ih (i + 1) _ stk.dropLast hb'
      constructor
      · rw [e1, set_append_mids _ _ _ hi, mids_singleton_with,
          mids_dropLast_getLast stk card hl]
        abel
      · rw [e2, List.length_set]

lemma sweepLoop_facts : ∀ (fuel i : Nat) (t : List (List Card)) (c : Nat),
    (∀ m, m < fuel → i + m < t.length) →
    mids ((sweepLoop fuel i t c).1.flatten) ≤ mids t.flatten ∧
    ((sweepLoop fuel i t c).1.flatten.length + 13 * (sweepLoop fuel i t c).2 =
      t.flatten.length + 13 * c) ∧
    (sweepLoop fuel i t c).1.length = t.length := by
  intro fuel
  induction fuel with
  | zero => intro i t c _; exact ⟨le_refl _, rfl, rfl⟩
  | succ f ih =>
    intro i t c hb
    simp only [sweepLoop]
    have hi : i < t.length := by
      have := hb 0 (by omega)
      omega
    have hex := mids_flatten_set t i (resolveCompleted (t.getD i [])).1 hi
    have hres := resolveCompleted_facts (t.getD i [])
    have hb' : ∀ m, m < f → (i + 1) + m <
        (t.set i (resolveCompleted (t.getD i [])).1).length := by
      rw [List.length_set]
      intro m hm
      have := hb (m + 1) (by omega)
      omega
    obtain ⟨e1, e2, e3⟩ := ih (i + 1) _ (c + (resolveCompleted (t.getD i [])).2) hb'
    have hle : mids ((t.set i (resolveCompleted (t.getD i [])).1).flatten) ≤
        mids t.flatten := by
      have h2 : mids ((t.set i (resolveCompleted (t.getD i [])).1).flatten) +
          mids (t.getD i []) ≤ mids t.flatten + mids (t.getD i []) := by
        rw [hex]
        exact add_le_add_left hres.1 _
      exact (add_le_add_iff_right _).mp h2
    have hcards := congrArg Multiset.card hex
    simp only [Multiset.card_add, mids_card] at hcards
    refine ⟨le_trans e1 hle, ?_, by rw [e3, List.length_set]⟩
    rw [e2]
    have := hres.2
    omega

/-- Every guarded Spider action only moves cards between piles or removes
completed 13-card suits while bumping the counter: the live ids are a
sub-multiset of what they were, and live-count plus 13 per completed suit is
preserved.  The tableau keeps its 10 piles. -/
lemma apply_facts {s : GameState} {a : Act} (hlen : s.tableau.length = 10)
    (hg : Guard a s) :
    mids (allS (apply a s)) ≤ mids (allS s) ∧
    ((allS (apply a s)).length + 13 * (apply a s).completedSuits =
      (allS s).length + 13 * s.completedSuits) ∧
    (apply a s).tableau.length = 10 := by
  cases a with
  | move i k j =>
    simp only [Guard, guardB, Bool.and_eq_true, Bool.not_eq_true',
      List.isEmpty_eq_false, decide_eq_true_eq] at hg
    have hi : i < s.tableau.length := by tauto
    have hj : j < s.tableau.length := by tauto
    have hij : i ≠ j := by tauto
    simp only [apply]
    have hA := mids_flatten_set s.tableau i
      (flipTopCard ((s.tableau.getD i []).take k)) hi
    rw [mids_flipTopCard] at hA
    have hj' : j < (s.tableau.set i
        (flipTopCard ((s.tableau.getD i []).take k))).length := by
      simpa using hj
    have hB := mids_flatten_set _ j
      (resolveCompleted ((s.tableau.getD j []) ++ (s.tableau.getD i []).drop k)).1
      hj'
    rw [getD_set_ne _ _ _ _ hij] at hB
    have hres := resolveCompleted_facts
      ((s.tableau.getD j []) ++ (s.tableau.getD i []).drop k)
    constructor
    · rw [mids_allS, mids_allS]
      refine add_le_add_right ?_ _
      have key : mids (((s.tableau.set i
          (flipTopCard ((s.tableau.getD i []).take k))).set j
          (resolveCompleted ((s.tableau.getD j []) ++
            (s.tableau.getD i []).drop k)).1).flatten) +
          (mids (s.tableau.getD j []) + mids (s.tableau.getD i [])) ≤
          mids s.tableau.flatten +
          (mids (s.tableau.getD j []) + mids (s.tableau.getD i [])) := by
        calc mids (((s.tableau.set i
            (flipTopCard ((s.tableau.getD i []).take k))).set j
            (resolveCompleted ((s.tableau.getD j []) ++
              (s.tableau.getD i []).drop k)).1).flatten) +
            (mids (s.tableau.getD j []) + mids (s.tableau.getD i []))
            = (mids (((s.tableau.set i
                (flipTopCard ((s.tableau.getD i []).take k))).set j
                (resolveCompleted ((s.tableau.getD j []) ++
                  (s.tableau.getD i []).drop k)).1).flatten) +
              mids (s.tableau.getD j [])) + mids (s.tableau.getD i []) := by
              abel
          _ = (mids ((s.tableau.set i
              (flipTopCard ((s.tableau.getD i []).take k))).flatten) +
              mids (resolveCompleted ((s.tableau.getD j []) ++
                (s.tableau.getD i []).drop k)).1) +
              mids (s.tableau.getD i []) := by rw [hB]
          _ ≤ (mids ((s.tableau.set i
              (flipTopCard ((s.tableau.getD i []).take k))).flatten) +
              mids ((s.tableau.getD j []) ++ (s.tableau.getD i []).drop k)) +
              mids (s.tableau.getD i []) := by
              exact add_le_add_right (add_le_add_left hres.1 _) _
          _ = (mids ((s.tableau.set i
              (flipTopCard ((s.tableau.getD i []).take k))).flatten) +
              mids (s.tableau.getD i [])) + (mids (s.tableau.getD j []) +
              mids ((s.tableau.getD i []).drop k)) := by
              rw [mids_append]
              abel
          _ = (mids s.tableau.flatten + mids ((s.tableau.getD i []).take k)) +
              (mids (s.tableau.getD j []) + mids ((s.tableau.getD i []).drop k)) := by
              rw [hA]
          _ = mids s.tableau.flatten + (mids (s.tableau.getD j []) +
              (mids ((s.tableau.getD i []).take k) +
               mids ((s.tableau.getD i []).drop k))) := by abel
          _ = mids s.tableau.flatten + (mids (s.tableau.getD j []) +
              mids (s.tableau.getD i [])) := by rw [mids_take_drop]
      exact (add_le_add_iff_right _).mp key
    constructor
    · have cA := congrArg Multiset.card hA
      have cB := congrArg Multiset.card hB
      simp only [Multiset.card_add, mids_card] at cA cB
      have hr2 := hres.2
      simp only [allS, List.length_append]
      have htk : ((s.tableau.getD i []).take k).length =
          min k (s.tableau.getD i []).length := List.length_take ..
      have hdp : ((s.tableau.getD i []).drop k).length =
          (s.tableau.getD i []).length - k := List.length_drop ..
      have hfl : (flipTopCard ((s.tableau.getD i []).take k)).length =
          ((s.tableau.getD i []).take k).length := length_flipTopCard _
      simp only [List.length_append] at hr2
      omega
    · simp only [List.length_set]
      exact hlen
  | emptyMove i k j =>
    simp only [Guard, guardB, Bool.and_eq_true, Bool.not_eq_true',
      List.isEmpty_iff, decide_eq_true_eq] at hg
    have hi : i < s.tableau.length := by tauto
    have hj : j < s.tableau.length := by tauto
    have hk : k < (s.tableau.getD i []).length := by tauto
    have hjnil : s.tableau.getD j [] = [] := by tauto
    have hij : i ≠ j := by
      intro h
      subst h
      rw [hjnil] at hk
      simp at hk
    simp only [apply]
    have hA := mids_flatten_set s.tableau i
      (flipTopCard ((s.tableau.getD i []).take k)) hi
    rw [mids_flipTopCard] at hA
    have hj' : j < (s.tableau.set i
        (flipTopCard ((s.tableau.getD i []).take k))).length := by
      simpa using hj
    have hB := mids_flatten_set _ j ((s.tableau.getD i []).drop k) hj'
    rw [getD_set_ne _ _ _ _ hij, hjnil] at hB
    have hkey : mids (((s.tableau.set i
        (flipTopCard ((s.tableau.getD i []).take k))).set j
        ((s.tableau.getD i []).drop k)).flatten) +
        mids (s.tableau.getD i []) =
        mids s.tableau.flatten + mids (s.tableau.getD i []) := by
      calc mids (((s.tableau.set i
          (flipTopCard ((s.tableau.getD i []).take k))).set j
          ((s.tableau.getD i []).drop k)).flatten) +
          mids (s.tableau.getD i [])
          = (mids (((s.tableau.set i
              (flipTopCard ((s.tableau.getD i []).take k))).set j
              ((s.tableau.getD i []).drop k)).flatten) + mids ([] : List Card)) +
            mids (s.tableau.getD i []) := by
            have : mids ([] : List Card) = 0 := rfl
            rw [this]
            abel
        _ = (mids ((s.tableau.set i
            (flipTopCard ((s.tableau.getD i []).take k))).flatten) +
            mids ((s.tableau.getD i []).drop k)) + mids (s.tableau.getD i []) := by
            rw [hB]
        _ = (mids ((s.tableau.set i
            (flipTopCard ((s.tableau.getD i []).take k))).flatten) +
            mids (s.tableau.getD i [])) + mids ((s.tableau.getD i []).drop k) := by
            abel
        _ = (mids s.tableau.flatten + mids ((s.tableau.getD i []).take k)) +
            mids ((s.tableau.getD i []).drop k) := by rw [hA]
        _ = mids s.tableau.flatten + (mids ((s.tableau.getD i []).take k) +
            mids ((s.tableau.getD i []).drop k)) := by abel
        _ = mids s.tableau.flatten + mids (s.tableau.getD i []) := by
            rw [mids_take_drop]
    have hflat := mids_cancel hkey
    have hcards := congrArg Multiset.card hflat
    simp only [mids_card] at hcards
    refine ⟨?_, ?_, by simp only [List.length_set]; exact hlen⟩
    · rw [mids_allS, mids_allS, hflat]
    · simp only [allS, List.length_append]
      omega
  | deal =>
    simp only [Guard, guardB, Bool.and_eq_true, Bool.not_eq_true',
      List.isEmpty_eq_false] at hg
    obtain ⟨hstk, hany⟩ := hg
    simp only [apply, handleStockClick]
    have hstk' : s.stock.isEmpty = false := by
      rw [List.isEmpty_eq_false]
      exact hstk
    simp only [hstk', hany, Bool.false_eq_true, if_false, Option.getD_some]
    have hd := dealLoop_facts 10 0 s.tableau s.stock
      (by intro m hm; omega)
    have hw := sweepLoop_facts 10 0 (dealLoop 10 0 s.tableau s.stock).1
      s.completedSuits (by intro m hm; rw [hd.2]; omega)
    have hdc := congrArg Multiset.card hd.1
    simp only [Multiset.card_add, mids_card] at hdc
    refine ⟨?_, ?_, by rw [hw.2.2, hd.2]; exact hlen⟩
    · rw [mids_allS, mids_allS]
      calc mids (sweepLoop 10 0 (dealLoop 10 0 s.tableau s.stock).1
            s.completedSuits).1.flatten +
          mids (dealLoop 10 0 s.tableau s.stock).2
          ≤ mids (dealLoop 10 0 s.tableau s.stock).1.flatten +
            mids (dealLoop 10 0 s.tableau s.stock).2 :=
            add_le_add_right hw.1 _
        _ = mids s.tableau.flatten + mids s.stock := hd.1
    · simp only [allS, List.length_append]
      have := hw.2.1
      omega

end Spider

namespace Spider

open SolPlus

lemma cloneGameState_eqS (s : GameState) : cloneGameState s = s := by
  simp [cloneGameState, Klondike.map_copyCard]

lemma mids_dealGameS (deck : List Card) :
    mids (allS (dealGame deck)) = mids deck := by
  have h := Klondike.dealFold_mids spiderOrder deck
    [[], [], [], [], [], [], [], [], [], []] (by decide)
  rw [mids_allS]
  show mids ((Klondike.dealFold spiderOrder deck _).1.flatten) +
    mids ((Klondike.dealFold spiderOrder deck _).2.map
      (fun c => { c with faceUp := false })) = mids deck
  rw [mids_map_faceUp, h]
  rfl

lemma length_dealGame (deck : List Card) :
    (dealGame deck).tableau.length = 10 := by
  show (Klondike.dealFold spiderOrder deck _).1.length = 10
  rw [Klondike.dealFold_length]
  rfl

/-- Conservation condition for a Spider pile aggregate relative to the ids
of the freshly built deck. -/
def Ok104 (base : Multiset String) (s : GameState) : Prop :=
  s.tableau.length = 10 ∧ mids (allS s) ≤ base ∧
    (allS s).length + 13 * s.completedSuits = 104

def Full (base : Multiset String) (p : Session) : Prop :=
  Ok104 base p.game ∧ ∀ t ∈ p.history, Ok104 base t

lemma step_fullS {base : Multiset String} {p q : Session} (hb : Full base p)
    (h : Step p q) : Full base q := by
  rcases h with ⟨a, hg, rfl⟩ | rfl
  · obtain ⟨hlen, hle, hct⟩ := hb.1
    obtain ⟨h1, h2, h3⟩ := apply_facts hlen hg
    refine ⟨⟨h3, le_trans h1 hle, ?_⟩, ?_⟩
    · show (allS (apply a p.game)).length +
        13 * (apply a p.game).completedSuits = 104
      omega
    intro t ht
    simp only [List.mem_append, List.mem_singleton] at ht
    rcases ht with h | h
    · exact hb.2 t h
    · rw [h, cloneGameState_eqS]
      exact hb.1
  · unfold handleUndo
    cases hl : p.history.getLast? with
    | none => exact hb
    | some t =>
      refine ⟨hb.2 t (List.mem_of_mem_getLast? hl), ?_⟩
      intro u hu
      exact hb.2 u ((List.dropLast_sublist _).subset hu)

lemma spiderDeck_length : ∀ sc, sc = 1 ∨ sc = 2 ∨ sc = 4 →
    (createSpiderDeck sc).length = 104 := by
  intro sc hsc
  rcases hsc with rfl | rfl | rfl <;> decide

lemma reachable_fullS {p : Session} (hr : Reachable p) :
    ∃ sc, (sc = 1 ∨ sc = 2 ∨ sc = 4) ∧
      Full (mids (createSpiderDeck sc)) p := by
  obtain ⟨sc, deck, hsc, hperm, hsteps⟩ := hr
  refine ⟨sc, hsc, ?_⟩
  have hbase : mids deck = mids (createSpiderDeck sc) :=
    Multiset.coe_eq_coe.mpr (hperm.map Card.id)
  have hcount : (allS (dealGame deck)).length = 104 := by
    have h1 := congrArg Multiset.card (mids_dealGameS deck)
    have h2 := congrArg Multiset.card hbase
    simp only [mids_card] at h1 h2
    rw [h1, h2, spiderDeck_length sc hsc]
  have hinit : Full (mids (createSpiderDeck sc))
      { game := dealGame deck, history := [], moves := 0, selected := none } := by
    refine ⟨⟨length_dealGame deck, ?_, ?_⟩, ?_⟩
    · rw [mids_dealGameS, hbase]
    · show (allS (dealGame deck)).length + 13 * 0 = 104
      omega
    · intro t ht
      cases ht
  clear hperm hbase
  induction hsteps with
  | refl => exact hinit
  | tail _ hstep ih => exact step_fullS ih hstep

end Spider

namespace SolPlus

/-- A legally built foundation pile starting from value `v` in suit `su`:
suit-homogeneous and rank-contiguous. -/
def isFoundationRunFrom (su : String) (v : Int) : List Card → Bool
  | [] => true
  | c :: t => c.suit = su && c.value = v && isFoundationRunFrom su (v + 1) t

lemma isFoundationRunFrom_getLast : ∀ (p : List Card) (su : String) (v : Int)
    (t : Card), isFoundationRunFrom su v p = true → p.getLast? = some t →
    t.suit = su ∧ t.value = v + p.length - 1 := by
  intro p
  induction p with
  | nil => intro su v t _ h; cases h
  | cons c r ih =>
    intro su v t hrun hlast
    have h1 := band_elim hrun
    have h2 := band_elim h1.1
    cases r with
    | nil =>
      simp only [List.getLast?_singleton, Option.some.injEq] at hlast
      subst hlast
      refine ⟨of_decide_eq_true h2.1, ?_⟩
      have := of_decide_eq_true h2.2
      simp [this]
    | cons c' r' =>
      rw [List.getLast?_cons_cons] at hlast
      have := ih su (v + 1) t h1.2 hlast
      refine ⟨this.1, ?_⟩
      rw [this.2]
      simp [List.length_cons]
      ring

end SolPlus

namespace Klondike

open SolPlus

/-- C7 -- `canPlaceOnFoundation(card, pile)` accepts exactly an Ace on an
empty pile, or a same-suit card exactly one above the pile top; and a full
legally built Ace-to-King foundation pile accepts no card of any legal value
(≤ 13): no 14th card. -/
theorem c7_canPlaceOnFoundation :
    (∀ (card : Card) (pile : List Card),
      canPlaceOnFoundation card pile = true ↔
        ((pile = [] ∧ card.rank = "A") ∨
          (∃ top, pile.getLast? = some top ∧ card.suit = top.suit ∧
            card.value = top.value + 1))) ∧
    (∀ (pile : List Card) (su : String) (card : Card),
      isFoundationRunFrom su 1 pile = true → pile.length = 13 →
      card.value ≤ 13 → canPlaceOnFoundation card pile = false) := by
  constructor
  · intro card pile
    unfold canPlaceOnFoundation
    cases hlast : pile.getLast? with
    | none =>
      have hpile : pile = [] := List.getLast?_eq_none_iff.mp hlast
      subst hpile
      simp
    | some top =>
      have hne : pile ≠ [] := by
        intro h
        subst h
        cases hlast
      constructor
      · intro h
        have := band_elim h
        exact Or.inr ⟨top, rfl, of_decide_eq_true this.1, of_decide_eq_true this.2⟩
      · intro h
        rcases h with ⟨h1, _⟩ | ⟨top', ht, hsuit, hval⟩
        · exact absurd h1 hne
        · rw [Option.some.injEq] at ht
          subst ht
          exact band_intro (decide_eq_true hsuit) (decide_eq_true hval)
  · intro pile su card hrun hlen hval
    have hne : pile ≠ [] := by
      intro h
      subst h
      cases hlen
    cases hlast : pile.getLast? with
    | none => exact absurd (List.getLast?_eq_none_iff.mp hlast) hne
    | some top =>
      have htop := isFoundationRunFrom_getLast pile su 1 top hrun hlast
      have htop13 : top.value = 13 := by
        rw [htop.2, hlen]
        norm_num
      unfold canPlaceOnFoundation
      rw [hlast]
      by_contra hacc
      rw [Bool.not_eq_false] at hacc
      have := of_decide_eq_true (band_elim hacc).2
      omega

/-- Witness for `c7_canPlaceOnFoundation`: the full spade foundation rejects
the ace of hearts. -/
def fullSpadeFoundation : List Card :=
  (List.range 13).map (fun i =>
    { suit := "♠", rank := RANKS.getD i "", value := (i : Int) + 1,
      color := "black", faceUp := true, id := "♠-" ++ RANKS.getD i "" })

theorem c7_witness :
    canPlaceOnFoundation
      { suit := "♥", rank := "A", value := 1, color := "red", faceUp := true,
        id := "♥-A" } fullSpadeFoundation = false :=
  c7_canPlaceOnFoundation.2 fullSpadeFoundation "♠" _ (by decide) (by decide)
    (by decide)

end Klondike

namespace SolPlus

lemma coe_set_exchange (l : List Card) (n : Nat) (x : Card) (h : n < l.length) :
    ((l.set n x : List Card) : Multiset Card) + {l.getD n default} =
      (l : Multiset Card) + {x} := by
  rw [List.set_eq_take_cons_drop x h]
  conv_rhs => rw [← List.take_append_drop n l, List.drop_eq_getElem_cons h]
  rw [List.getD_eq_getElem _ _ h]
  rw [← Multiset.coe_add, ← Multiset.coe_add, ← Multiset.cons_coe,
    ← Multiset.cons_coe, ← Multiset.singleton_add, ← Multiset.singleton_add]
  abel

end SolPlus

namespace SolPlus

lemma listSwap_perm (l : List Card) (i j : Nat) : (listSwap l i j).Perm l := by
  unfold listSwap
  cases hi : l.get? i with
  | none => exact List.Perm.refl l
  | some a =>
    cases hj : l.get? j with
    | none => exact List.Perm.refl l
    | some b =>
      have hil : i < l.length := by
        by_contra h
        rw [List.get?_eq_none.mpr (by omega)] at hi
        cases hi
      have hjl : j < l.length := by
        by_contra h
        rw [List.get?_eq_none.mpr (by omega)] at hj
        cases hj
      have ha : l.getD i default = a := by
        rw [List.getD, hi]
        rfl
      have hb : l.getD j default = b := by
        rw [List.getD, hj]
        rfl
      rw [← Multiset.coe_eq_coe]
      show ((l.set i b).set j a : Multiset Card) = (l : Multiset Card)
      have e1 := coe_set_exchange l i b hil
      have e2 := coe_set_exchange (l.set i b) j a (by simpa using hjl)
      by_cases hij : i = j
      · subst hij
        rw [hi] at hj
        cases hj
        have : (l.set i a).set i a = l.set i a := List.set_set ..
        rw [this]
        have hget : l.set i (l.getD i default) = l := by
          rw [List.getD_eq_getElem _ _ hil]
          apply List.ext_getElem
          · simp
          · intro n h1 h2
            by_cases hn : i = n
            · subst hn
              simp
            · rw [List.getElem_set_ne hn]
        rw [ha] at hget
        rw [hget]
      · have hgetj : (l.set i b).getD j default = b := by
          rw [List.getD_eq_getElem _ _ (by simpa using hjl),
            List.getElem_set_ne hij, ← List.getD_eq_getElem _ _ hjl, hb]
        rw [hgetj] at e2
        rw [ha] at e1
        have key : ((l.set i b).set j a : Multiset Card) + {b} =
            (l : Multiset Card) + {b} := e2.trans e1
        exact add_right_cancel key

end SolPlus

namespace SolPlus

lemma shuffleAux_eq_foldl : ∀ (n : Nat) (l : List Card) (seed : Nat),
    shuffleAux l seed n =
      (lcgSwapPairs seed n).foldl (fun l p => listSwap l p.1 p.2) l := by
  intro n
  induction n with
  | zero => intro l seed; rfl
  | succ m ih =>
    intro l seed
    simp only [shuffleAux, lcgSwapPairs, List.foldl_cons]
    exact ih _ _

lemma shuffleAux_perm : ∀ (n : Nat) (l : List Card) (seed : Nat),
    (shuffleAux l seed n).Perm l := by
  intro n
  induction n with
  | zero => intro l seed; exact List.Perm.refl l
  | succ m ih =>
    intro l seed
    simp only [shuffleAux]
    exact (ih _ _).trans (listSwap_perm ..)

/-- C6 -- the seeded shuffle is exactly the Fisher–Yates procedure the
specification describes (swap stream generated by
`seed' = (seed*9301+49297) mod 233280`, `j = floor((seed'/233280)*(i+1))`
for `i` from `length-1` down to `1`); it is deterministic (equal deck and
seed give an identical ordering), and it permutes the deck. -/
theorem c6_shuffleDeckWithSeed :
    (∀ (deck : List Card) (seed : Nat),
      shuffleDeckWithSeed deck seed = specFisherYates deck seed) ∧
    (∀ (d₁ d₂ : List Card) (s₁ s₂ : Nat), d₁ = d₂ → s₁ = s₂ →
      shuffleDeckWithSeed d₁ s₁ = shuffleDeckWithSeed d₂ s₂) ∧
    (∀ (deck : List Card) (seed : Nat),
      (shuffleDeckWithSeed deck seed).Perm deck) := by
  refine ⟨?_, ?_, ?_⟩
  · intro deck seed
    unfold shuffleDeckWithSeed specFisherYates
    cases hlen : deck.length with
    | zero =>
      simp only [Nat.zero_sub, lcgSwapPairs]
      rfl
    | succ n =>
      simp only [hlen, Nat.succ_sub_one]
      exact shuffleAux_eq_foldl n deck seed
  · intro d₁ d₂ s₁ s₂ hd hs
    rw [hd, hs]
  · intro deck seed
    unfold shuffleDeckWithSeed
    cases hlen : deck.length with
    | zero => exact List.Perm.refl deck
    | succ n => exact shuffleAux_perm n deck seed

/-- Witness for `c6_shuffleDeckWithSeed`: at the concrete 52-card deck and
the daily seed 20240101, the implementation agrees with the spec-described
procedure and its determinism hypothesis is discharged. -/
theorem c6_witness :
    shuffleDeckWithSeed createDeck 20240101 =
      specFisherYates createDeck 20240101 ∧
    shuffleDeckWithSeed createDeck 20240101 =
      shuffleDeckWithSeed createDeck 20240101 :=
  ⟨c6_shuffleDeckWithSeed.1 createDeck 20240101,
    c6_shuffleDeckWithSeed.2.1 createDeck createDeck 20240101 20240101 rfl rfl⟩

end SolPlus

namespace SolPlus

/-- C4 counterexample -- the claim says undo decrements the move counter by
one in both variants; in the Spider variant `handleUndo` runs
`setMoves(m => m + 1)`: at a concrete session with one snapshot and
`moves = 5`, undo yields `moves = 6`, not `4`. -/
theorem c4_counterexample :
    (Spider.handleUndo
      { game := { tableau := [], stock := [], completedSuits := 0 }
        history := [{ tableau := [], stock := [], completedSuits := 0 }]
        moves := 5, selected := none }).moves = 6 ∧
    ¬ (Spider.handleUndo
      { game := { tableau := [], stock := [], completedSuits := 0 }
        history := [{ tableau := [], stock := [], completedSuits := 0 }]
        moves := 5, selected := none }).moves = 5 - 1 := by
  constructor
  · rfl
  · intro h
    simp [Spider.handleUndo] at h

/-- C4 (amended) -- with non-empty history, undo pops the most recent
snapshot into the live state and clears the selection in both variants;
the Klondike variant sets the move counter to `max 0 (moves - 1)`
(decrement with floor at zero) while the Spider variant sets it to
`moves + 1`; with empty history both are no-ops. -/
theorem c4_handleUndo :
    (∀ ses : Klondike.Session, ses.history = [] →
      Klondike.handleUndo ses = ses) ∧
    (∀ (ses : Klondike.Session) (t : Klondike.GameState),
      ses.history.getLast? = some t →
      Klondike.handleUndo ses =
        { game := t, history := ses.history.dropLast,
          moves := max 0 (ses.moves - 1), selected := none }) ∧
    (∀ ses : Spider.Session, ses.history = [] →
      Spider.handleUndo ses = ses) ∧
    (∀ (ses : Spider.Session) (t : Spider.GameState),
      ses.history.getLast? = some t →
      Spider.handleUndo ses =
        { game := t, history := ses.history.dropLast,
          moves := ses.moves + 1, selected := none }) := by
  refine ⟨?_, ?_, ?_, ?_⟩
  · intro ses h
    unfold Klondike.handleUndo
    rw [h]
    rfl
  · intro ses t h
    unfold Klondike.handleUndo
    rw [h]
  · intro ses h
    unfold Spider.handleUndo
    rw [h]
    rfl
  · intro ses t h
    unfold Spider.handleUndo
    rw [h]

/-- Concrete sessions for the `c4_handleUndo` witness. -/
def kSesEmptyHist : Klondike.Session :=
  { game := { tableau := [], foundations := [], stock := [], waste := [] },
    history := [], moves := 3, selected := none }

def kSesOneSnap : Klondike.Session :=
  { game := { tableau := [], foundations := [], stock := [], waste := [] },
    history := [{ tableau := [[]], foundations := [], stock := [], waste := [] }],
    moves := 0, selected := none }

/-- Witness for `c4_handleUndo`: concrete no-op on empty history and a
concrete pop (Klondike, `moves = 0`, showing the floor at zero). -/
theorem c4_witness :
    Klondike.handleUndo kSesEmptyHist = kSesEmptyHist ∧
    (Klondike.handleUndo kSesOneSnap).moves = max 0 (0 - 1) :=
  ⟨c4_handleUndo.1 _ rfl, by
    have h := c4_handleUndo.2.1 kSesOneSnap
      { tableau := [[]], foundations := [], stock := [], waste := [] } (by rfl)
    rw [h]
    rfl⟩

end SolPlus

namespace Klondike

open SolPlus

/-- `n` consecutive history-saving (mutating) steps. -/
def MSteps : Nat → Session → Session → Prop
  | 0, p, r => r = p
  | n + 1, p, r => ∃ q, MStep p q ∧ MSteps n q r

lemma handleUndo_gh {a b : Session} (hg : a.game = b.game)
    (hh : a.history = b.history) :
    (handleUndo a).game = (handleUndo b).game ∧
      (handleUndo a).history = (handleUndo b).history := by
  unfold handleUndo
  rw [hh]
  cases b.history.getLast? with
  | none => exact ⟨hg, hh⟩
  | some t => exact ⟨rfl, rfl⟩

lemma roundTrip : ∀ (n : Nat) (p r : Session), MSteps n p r →
    (handleUndo^[n] r).game = p.game ∧
      (handleUndo^[n] r).history = p.history := by
  intro n
  induction n with
  | zero =>
    intro p r h
    rw [h]
    exact ⟨rfl, rfl⟩
  | succ m ih =>
    intro p r h
    obtain ⟨q, hq, hrest⟩ := h
    obtain ⟨hg, hh⟩ := ih q r hrest
    rw [Function.iterate_succ_apply']
    obtain ⟨a, hguard, hq'⟩ := hq
    have hqh : q.history = p.history ++ [p.game] := by
      rw [hq', cloneGameState_eq]
    obtain ⟨g2, h2⟩ := handleUndo_gh hg hh
    constructor
    · rw [g2]
      unfold handleUndo
      rw [hqh]
      simp only [List.getLast?_concat]
    · rw [h2]
      unfold handleUndo
      rw [hqh]
      simp only [List.getLast?_concat, List.dropLast_concat]

end Klondike

namespace Spider

open SolPlus

/-- `n` consecutive history-saving (mutating) Spider steps. -/
def MSteps : Nat → Session → Session → Prop
  | 0, p, r => r = p
  | n + 1, p, r => ∃ q, MStep p q ∧ MSteps n q r

lemma handleUndo_ghS {a b : Session} (hg : a.game = b.game)
    (hh : a.history = b.history) :
    (handleUndo a).game = (handleUndo b).game ∧
      (handleUndo a).history = (handleUndo b).history := by
  unfold handleUndo
  rw [hh]
  cases b.history.getLast? with
  | none => exact ⟨hg, hh⟩
  | some t => exact ⟨rfl, rfl⟩

lemma roundTripS : ∀ (n : Nat) (p r : Session), MSteps n p r →
    (handleUndo^[n] r).game = p.game ∧
      (handleUndo^[n] r).history = p.history := by
  intro n
  induction n with
  | zero =>
    intro p r h
    rw [h]
    exact ⟨rfl, rfl⟩
  | succ m ih =>
    intro p r h
    obtain ⟨q, hq, hrest⟩ := h
    obtain ⟨hg, hh⟩ := ih q r hrest
    rw [Function.iterate_succ_apply']
    obtain ⟨a, hguard, hq'⟩ := hq
    have hqh : q.history = p.history ++ [p.game] := by
      rw [hq', cloneGameState_eqS]
    obtain ⟨g2, h2⟩ := handleUndo_ghS hg hh
    constructor
    · rw [g2]
      unfold handleUndo
      rw [hqh]
      simp only [List.getLast?_concat]
    · rw [h2]
      unfold handleUndo
      rw [hqh]
      simp only [List.getLast?_concat, List.dropLast_concat]

end Spider

namespace SolPlus

/-- C1 -- history snapshots are deep copies: in the embedding,
`cloneGameState` rebuilds every card field by field and equals the identity,
so saved snapshots are structurally the saved state and are untouched by
later play.  For every sequence of `N` history-saving moves followed by `N`
undos, in either variant, the resulting pile aggregate (tableau,
foundations / completed-suit count, stock, waste) is structurally identical
to the one before the first move, and the history stack returns to its
original contents. -/
theorem c1_undo_roundtrip :
    (∀ s : Klondike.GameState, Klondike.cloneGameState s = s) ∧
    (∀ s : Spider.GameState, Spider.cloneGameState s = s) ∧
    (∀ (n : Nat) (p r : Klondike.Session), Klondike.MSteps n p r →
      (Klondike.handleUndo^[n] r).game = p.game ∧
        (Klondike.handleUndo^[n] r).history = p.history) ∧
    (∀ (n : Nat) (p r : Spider.Session), Spider.MSteps n p r →
      (Spider.handleUndo^[n] r).game = p.game ∧
        (Spider.handleUndo^[n] r).history = p.history) :=
  ⟨Klondike.cloneGameState_eq, Spider.cloneGameState_eqS,
    Klondike.roundTrip, Spider.roundTripS⟩

end SolPlus

namespace SolPlus

/-- Concrete one-move session for the `c1_undo_roundtrip` witness: a single
stock draw from a one-card stock, then one undo. -/
def aceOfSpades : Card :=
  { suit := "♠", rank := "A", value := 1, color := "black", faceUp := false,
    id := "♠-A" }

def kGameStart : Klondike.GameState :=
  { tableau := [], foundations := [], stock := [aceOfSpades], waste := [] }

def kSesStart : Klondike.Session :=
  { game := kGameStart, history := [], moves := 0, selected := none }

def kSesAfterDraw : Klondike.Session :=
  { game := Klondike.apply (.draw 1) kSesStart.game,
    history := kSesStart.history ++ [Klondike.cloneGameState kSesStart.game],
    moves := kSesStart.moves + Klondike.movesDelta (.draw 1) kSesStart.game,
    selected := Klondike.selAfter (.draw 1) kSesStart.game kSesStart.selected }

theorem c1_witness :
    (Klondike.handleUndo^[1] kSesAfterDraw).game = kSesStart.game :=
  (c1_undo_roundtrip.2.2.1 1 kSesStart kSesAfterDraw
    ⟨kSesAfterDraw, ⟨.draw 1, by decide, rfl⟩, rfl⟩).1

end SolPlus

namespace SolPlus

/-- C2 -- card conservation in every reachable state of either variant:
Klondike keeps exactly 52 cards across tableau, foundations, stock and waste
with pairwise-distinct ids (each card in exactly one pile, exactly once);
Spider keeps live-cards plus 13 per banked completed suit equal to 104, with
pairwise-distinct live ids — in particular after a suit completion removes
13 cards the remaining cards are still distinct and the accounting still
reaches 104. -/
theorem c2_card_conservation :
    (∀ p : Klondike.Session, Klondike.Reachable p →
      (Klondike.allCards p.game).length = 52 ∧
        ((Klondike.allCards p.game).map Card.id).Nodup) ∧
    (∀ p : Spider.Session, Spider.Reachable p →
      (Spider.allS p.game).length + 13 * p.game.completedSuits = 104 ∧
        ((Spider.allS p.game).map Card.id).Nodup) := by
  constructor
  · intro p hr
    have hf := Klondike.reachable_full hr
    have he := hf.1.2
    constructor
    · have hc := congrArg Multiset.card he
      simp only [mids_card] at hc
      rw [hc]
      decide
    · have hperm : ((Klondike.allCards p.game).map Card.id).Perm
          (createDeck.map Card.id) := Multiset.coe_eq_coe.mp he
      have hnodup : (createDeck.map Card.id).Nodup := by decide
      exact hperm.nodup_iff.mpr hnodup
  · intro p hr
    obtain ⟨sc, hsc, hf⟩ := Spider.reachable_fullS hr
    refine ⟨hf.1.2.2, ?_⟩
    have hbase : ((createSpiderDeck sc).map Card.id).Nodup := by
      rcases hsc with rfl | rfl | rfl <;> decide
    have := Multiset.nodup_of_le hf.1.2.1 (by exact_mod_cast hbase)
    exact_mod_cast this

/-- Witness for `c2_card_conservation`: the freshly dealt games (reachable in
zero steps) satisfy both conjuncts. -/
theorem c2_witness :
    ((Klondike.allCards (Klondike.dealGame createDeck)).length = 52 ∧
      ((Klondike.allCards (Klondike.dealGame createDeck)).map Card.id).Nodup) ∧
    ((Spider.allS (Spider.dealGame (createSpiderDeck 1))).length +
        13 * (Spider.dealGame (createSpiderDeck 1)).completedSuits = 104 ∧
      ((Spider.allS (Spider.dealGame (createSpiderDeck 1))).map Card.id).Nodup) :=
  ⟨c2_card_conservation.1
      { game := Klondike.dealGame createDeck, history := [], moves := 0,
        selected := none }
      ⟨createDeck, List.Perm.refl _, Relation.ReflTransGen.refl⟩,
    c2_card_conservation.2
      { game := Spider.dealGame (createSpiderDeck 1), history := [],
        moves := 0, selected := none }
      ⟨1, createSpiderDeck 1, Or.inl rfl, List.Perm.refl _,
        Relation.ReflTransGen.refl⟩⟩

end SolPlus

namespace SolPlus

/-- C3 -- in every reachable Klondike state, any run the engine lets a player
lift from one tableau pile (a face-up suffix, validated through the selection
guard and `canPlaceOnTableau`) is entirely face-up and internally alternates
color while descending by exactly 1: the legality is structurally guaranteed
by the reachability invariant, covering multi-card lifts in particular. -/
theorem c3_liftable_runs :
    ∀ (p : Klondike.Session) (i k j : Nat), Klondike.Reachable p →
      Klondike.Guard (.tableauToTableau i k j) p.game →
      isRun ((p.game.tableau.getD i []).drop k) = true ∧
        AllUp ((p.game.tableau.getD i []).drop k) := by
  intro p i k j hr hg
  have hf := (Klondike.reachable_full hr).1.1
  simp only [Klondike.Guard, Klondike.guardB, Bool.and_eq_true,
    decide_eq_true_eq] at hg
  obtain ⟨⟨⟨⟨hi, hj⟩, hk⟩, hup⟩, hcan⟩ := hg
  have hs := pileOk_faceUp_split (hf.piles _ (getD_mem_of_lt hi)) hk hup
  exact ⟨hs.2, hs.1⟩

def sevenOfHearts : Card :=
  { suit := "♥", rank := "7", value := 7, color := "red", faceUp := false,
    id := "♥-7" }

def eightOfSpades : Card :=
  { suit := "♠", rank := "8", value := 8, color := "black", faceUp := false,
    id := "♠-8" }

/-- A full 52-card deck arranged so that the fresh deal puts the red 7 alone
on pile 0 and the black 8 face-up on top of pile 1. -/
def c3Deck : List Card :=
  [sevenOfHearts] ++
    (createDeck.filter (fun c => !(c.id = "♥-7" || c.id = "♠-8"))).take 6 ++
    [eightOfSpades] ++
    (createDeck.filter (fun c => !(c.id = "♥-7" || c.id = "♠-8"))).drop 6

/-- Witness for `c3_liftable_runs`: the deal of `c3Deck` is reachable and the
move of pile 0's face-up card onto pile 1 is legal; the lifted suffix is a
face-up run. -/
theorem c3_witness :
    isRun (((Klondike.dealGame c3Deck).tableau.getD 0 []).drop 0) = true ∧
      AllUp (((Klondike.dealGame c3Deck).tableau.getD 0 []).drop 0) :=
  c3_liftable_runs
    { game := Klondike.dealGame c3Deck, history := [], moves := 0,
      selected := none } 0 0 1
    ⟨c3Deck, by decide, Relation.ReflTransGen.refl⟩ (by decide)

end SolPlus

namespace SolPlus

/-- A card after a transition is either the same card object or the same card
turned face-up. -/
def Upg (c c' : Card) : Prop := c' = c ∨ c' = { c with faceUp := true }

instance (c c' : Card) : Decidable (Upg c c') := by
  unfold Upg
  infer_instance

/-- Every card of `l'` is an unchanged or face-up-flipped card of `l`: no
card was turned face-down. -/
def Upgrades (l l' : List Card) : Prop := ∀ c' ∈ l', ∃ c ∈ l, Upg c c'

instance (l l' : List Card) : Decidable (Upgrades l l') := by
  unfold Upgrades
  infer_instance

lemma upgrades_of_subset {l l' : List Card} (h : l' ⊆ l) : Upgrades l l' :=
  fun c' hc' => ⟨c', h hc', Or.inl rfl⟩

lemma upgrades_refl (l : List Card) : Upgrades l l :=
  upgrades_of_subset (fun _ h => h)

lemma upgrades_append {L l₁ l₂ : List Card} (h₁ : Upgrades L l₁)
    (h₂ : Upgrades L l₂) : Upgrades L (l₁ ++ l₂) := by
  intro c' hc'
  rcases List.mem_append.mp hc' with h | h
  · exact h₁ c' h
  · exact h₂ c' h

lemma upgrades_mono_src {L L' l : List Card} (h : Upgrades L l)
    (hs : L ⊆ L') : Upgrades L' l := by
  intro c' hc'
  obtain ⟨c, hc, hu⟩ := h c' hc'
  exact ⟨c, hs hc, hu⟩

lemma upgrades_map_true (l : List Card) :
    Upgrades l (l.map (fun c => { c with faceUp := true })) := by
  intro c' hc'
  obtain ⟨c, hc, rfl⟩ := List.mem_map.mp hc'
  exact ⟨c, hc, Or.inr rfl⟩

lemma upgrades_flipTopCard (l : List Card) : Upgrades l (flipTopCard l) := by
  unfold flipTopCard
  cases hl : l.getLast? with
  | none => exact upgrades_refl l
  | some c =>
    by_cases hc : c.faceUp
    · simp only [hc, if_true]
      exact upgrades_refl l
    · simp only [hc, Bool.false_eq_true, if_false]
      refine upgrades_append
        (upgrades_of_subset (List.dropLast_sublist l).subset) ?_
      intro c' hc'
      simp only [List.mem_singleton] at hc'
      subst hc'
      exact ⟨c, List.mem_of_mem_getLast? hl, Or.inr rfl⟩

lemma getD_subset_flatten (t : List (List Card)) (j : Nat) :
    t.getD j [] ⊆ t.flatten := by
  by_cases hj : j < t.length
  · intro c hc
    exact List.mem_flatten.mpr ⟨_, getD_mem_of_lt hj, hc⟩
  · rw [List.getD_eq_default _ _ (by omega)]
    intro c hc
    cases hc

lemma mem_flatten_set {t : List (List Card)} {i : Nat} {p : List Card}
    {c : Card} (h : c ∈ (t.set i p).flatten) : c ∈ p ∨ c ∈ t.flatten := by
  obtain ⟨pile, hpile, hc⟩ := List.mem_flatten.mp h
  rcases List.mem_or_eq_of_mem_set hpile with hmem | heq
  · exact Or.inr (List.mem_flatten.mpr ⟨pile, hmem, hc⟩)
  · subst heq
    exact Or.inl hc

lemma upgrades_flatten_set {t : List (List Card)} {i : Nat} {p : List Card}
    {L : List Card} (hp : Upgrades L p) (ht : Upgrades L t.flatten) :
    Upgrades L ((t.set i p).flatten) := by
  intro c' hc'
  rcases mem_flatten_set hc' with h | h
  · exact hp c' h
  · exact ht c' h

end SolPlus

namespace SolPlus

lemma upg_trans {a b c : Card} (h₁ : Upg a b) (h₂ : Upg b c) : Upg a c := by
  unfold Upg at *
  rcases h₁ with rfl | rfl
  · exact h₂
  · rcases h₂ with rfl | rfl
    · exact Or.inr rfl
    · exact Or.inr rfl

lemma upgrades_trans {A B C : List Card} (h₁ : Upgrades A B)
    (h₂ : Upgrades B C) : Upgrades A C := by
  intro c' hc'
  obtain ⟨b, hb, hub⟩ := h₂ c' hc'
  obtain ⟨a, ha, hua⟩ := h₁ b hb
  exact ⟨a, ha, upg_trans hua hub⟩

lemma upgrades_subset_right {A B C : List Card} (h : Upgrades A B)
    (hs : C ⊆ B) : Upgrades A C := fun c' hc' => h c' (hs hc')

lemma upgrades_resolveCompleted (p : List Card) :
    Upgrades p (Spider.resolveCompleted p).1 := by
  unfold Spider.resolveCompleted
  cases Spider.checkForCompletedSuit p with
  | none => exact upgrades_refl p
  | some n =>
    exact upgrades_trans (upgrades_of_subset (List.take_subset _ _))
      (upgrades_flipTopCard _)

end SolPlus

namespace Klondike

open SolPlus

lemma subset_allCards_tableau (s : GameState) :
    s.tableau.flatten ⊆ allCards s := by
  intro c hc
  unfold allCards
  simp only [List.mem_append]
  tauto

lemma subset_allCards_foundations (s : GameState) :
    s.foundations.flatten ⊆ allCards s := by
  intro c hc
  unfold allCards
  simp only [List.mem_append]
  tauto

lemma subset_allCards_stock (s : GameState) : s.stock ⊆ allCards s := by
  intro c hc
  unfold allCards
  simp only [List.mem_append]
  tauto

lemma subset_allCards_waste (s : GameState) : s.waste ⊆ allCards s := by
  intro c hc
  unfold allCards
  simp only [List.mem_append]
  tauto

/-- Outside the recycle branch of `drawFromStock`, every guarded Klondike
action only moves cards unchanged or flips them face-up. -/
lemma upgrades_apply {s : GameState} {a : Act} (hg : Guard a s)
    (hnr : ∀ n, a = Act.draw n → s.stock ≠ [] ∨ s.waste = []) :
    Upgrades (allCards s) (allCards (apply a s)) := by
  have hT := upgrades_of_subset (subset_allCards_tableau s)
  have hF := upgrades_of_subset (subset_allCards_foundations s)
  have hS := upgrades_of_subset (subset_allCards_stock s)
  have hW := upgrades_of_subset (subset_allCards_waste s)
  cases a with
  | draw n =>
    unfold apply
    by_cases h1 : s.stock.isEmpty
    · have hw : s.waste = [] := by
        rcases hnr n rfl with h | h
        · exact absurd (List.isEmpty_iff.mp h1) h
        · exact h
      have h2 : s.waste.isEmpty = true := by
        rw [hw]
        rfl
      simp only [h1, h2, if_true]
      exact upgrades_refl _
    · rw [Bool.not_eq_true] at h1
      simp only [h1, Bool.false_eq_true, if_false]
      unfold allCards
      refine upgrades_append (upgrades_append (upgrades_append hT hF) ?_) ?_
      · exact upgrades_subset_right hS (List.take_subset _ _)
      · refine upgrades_append hW ?_
        refine upgrades_trans ?_ (upgrades_map_true _)
        exact upgrades_subset_right hS (List.drop_subset _ _)
  | wasteToTableau j =>
    simp only [Guard, guardB, Bool.and_eq_true, Bool.not_eq_true',
      List.isEmpty_eq_false, decide_eq_true_eq] at hg
    obtain ⟨⟨hw, hj⟩, _⟩ := hg
    unfold apply allCards
    have hcard : Upgrades (allCards s) [s.waste.getLast?.getD default] := by
      intro c' hc'
      simp only [List.mem_singleton] at hc'
      subst hc'
      exact ⟨_, subset_allCards_waste s (getLastD_mem hw), Or.inl rfl⟩
    refine upgrades_append (upgrades_append (upgrades_append ?_ hF) hS) ?_
    · refine upgrades_flatten_set ?_ hT
      exact upgrades_append
        (upgrades_subset_right hT (getD_subset_flatten _ _)) hcard
    · exact upgrades_subset_right hW (List.dropLast_sublist _).subset
  | tableauToTableau i k j =>
    unfold apply allCards
    have ht1 : Upgrades (allCards s)
        (((s.tableau.set i ((s.tableau.getD i []).take k)).set j
          ((s.tableau.getD j []) ++ (s.tableau.getD i []).drop k)).flatten) := by
      refine upgrades_flatten_set ?_ (upgrades_flatten_set ?_ hT)
      · refine upgrades_append
          (upgrades_subset_right hT (getD_subset_flatten _ _)) ?_
        refine upgrades_subset_right hT ?_
        intro c hc
        exact getD_subset_flatten _ _ (List.drop_subset _ _ hc)
      · refine upgrades_subset_right hT ?_
        intro c hc
        exact getD_subset_flatten _ _ (List.take_subset _ _ hc)
    refine upgrades_append (upgrades_append (upgrades_append ?_ hF) hS) hW
    refine upgrades_flatten_set ?_ ht1
    refine upgrades_trans ?_ (upgrades_flipTopCard _)
    exact upgrades_subset_right ht1 (getD_subset_flatten _ _)
  | foundationToTableau f j =>
    simp only [Guard, guardB, Bool.and_eq_true, Bool.not_eq_true',
      List.isEmpty_eq_false, decide_eq_true_eq] at hg
    obtain ⟨⟨⟨⟨hf, hfne⟩, hj⟩, _⟩, _⟩ := hg
    unfold apply allCards
    have hcard : Upgrades (allCards s)
        [(s.foundations.getD f []).getLast?.getD default] := by
      intro c' hc'
      simp only [List.mem_singleton] at hc'
      subst hc'
      refine ⟨_, subset_allCards_foundations s ?_, Or.inl rfl⟩
      exact getD_subset_flatten _ _ (getLastD_mem hfne)
    refine upgrades_append (upgrades_append (upgrades_append ?_ ?_) hS) hW
    · refine upgrades_flatten_set ?_ hT
      exact upgrades_append
        (upgrades_subset_right hT (getD_subset_flatten _ _)) hcard
    · refine upgrades_flatten_set ?_ hF
      refine upgrades_subset_right hF ?_
      intro c hc
      exact getD_subset_flatten _ _ ((List.dropLast_sublist _).subset hc)
  | wasteToFoundation f =>
    simp only [Guard, guardB, Bool.and_eq_true, Bool.not_eq_true',
      List.isEmpty_eq_false, decide_eq_true_eq] at hg
    obtain ⟨⟨hw, hf⟩, _⟩ := hg
    unfold apply allCards
    have hcard : Upgrades (allCards s) [s.waste.getLast?.getD default] := by
      intro c' hc'
      simp only [List.mem_singleton] at hc'
      subst hc'
      exact ⟨_, subset_allCards_waste s (getLastD_mem hw), Or.inl rfl⟩
    refine upgrades_append (upgrades_append (upgrades_append hT ?_) hS) ?_
    · refine upgrades_flatten_set ?_ hF
      exact upgrades_append
        (upgrades_subset_right hF (getD_subset_flatten _ _)) hcard
    · exact upgrades_subset_right hW (List.dropLast_sublist _).subset
  | tableauToFoundation i f =>
    simp only [Guard, guardB, Bool.and_eq_true, Bool.not_eq_true',
      List.isEmpty_eq_false, decide_eq_true_eq] at hg
    obtain ⟨⟨⟨⟨hi, hine⟩, _⟩, hf⟩, _⟩ := hg
    unfold apply allCards
    have hcard : Upgrades (allCards s)
        [(s.tableau.getD i []).getLast?.getD default] := by
      intro c' hc'
      simp only [List.mem_singleton] at hc'
      subst hc'
      refine ⟨_, subset_allCards_tableau s ?_, Or.inl rfl⟩
      exact getD_subset_flatten _ _ (getLastD_mem hine)
    refine upgrades_append (upgrades_append (upgrades_append ?_ ?_) hS) hW
    · refine upgrades_flatten_set ?_ hT
      refine upgrades_trans ?_ (upgrades_flipTopCard _)
      refine upgrades_subset_right hT ?_
      intro c hc
      exact getD_subset_flatten _ _ ((List.dropLast_sublist _).subset hc)
    · refine upgrades_flatten_set ?_ hF
      exact upgrades_append
        (upgrades_subset_right hF (getD_subset_flatten _ _)) hcard

end Klondike

namespace Spider

open SolPlus

lemma subset_allS_tableau (s : GameState) : s.tableau.flatten ⊆ allS s := by
  intro c hc
  unfold allS
  simp only [List.mem_append]
  tauto

lemma subset_allS_stock (s : GameState) : s.stock ⊆ allS s := by
  intro c hc
  unfold allS
  simp only [List.mem_append]
  tauto

lemma upgrades_dealLoop : ∀ (fuel i : Nat) (t : List (List Card))
    (stk : List Card),
    Upgrades (t.flatten ++ stk)
      ((dealLoop fuel i t stk).1.flatten ++ (dealLoop fuel i t stk).2) := by
  intro fuel
  induction fuel with
  | zero => intro i t stk; exact upgrades_refl _
  | succ f ih =>
    intro i t stk
    simp only [dealLoop]
    cases hl : stk.getLast? with
    | none => exact upgrades_refl _
    | some card =>
      refine upgrades_trans ?_ (ih (i + 1) _ stk.dropLast)
      have hT := upgrades_of_subset
        (List.subset_append_left t.flatten stk)
      have hS := upgrades_of_subset
        (List.subset_append_right t.flatten stk)
      refine upgrades_append ?_ ?_
      · refine upgrades_flatten_set ?_ hT
        refine upgrades_append
          (upgrades_subset_right hT (getD_subset_flatten _ _)) ?_
        intro c' hc'
        simp only [List.mem_singleton] at hc'
        subst hc'
        refine ⟨card, ?_, Or.inr rfl⟩
        exact List.subset_append_right t.flatten stk
          (List.mem_of_mem_getLast? hl)
      · exact upgrades_subset_right hS (List.dropLast_sublist _).subset

lemma upgrades_sweepLoop : ∀ (fuel i : Nat) (t : List (List Card)) (c : Nat),
    Upgrades t.flatten (sweepLoop fuel i t c).1.flatten := by
  intro fuel
  induction fuel with
  | zero => intro i t c; exact upgrades_refl _
  | succ f ih =>
    intro i t c
    simp only [sweepLoop]
    refine upgrades_trans ?_ (ih (i + 1) _ _)
    refine upgrades_flatten_set ?_ (upgrades_refl _)
    refine upgrades_trans ?_ (upgrades_resolveCompleted _)
    exact upgrades_of_subset (getD_subset_flatten _ _)

/-- Every guarded Spider action only moves cards unchanged, flips them
face-up, or removes them into the completed-suit bank. -/
lemma upgrades_applyS {s : GameState} {a : Act} (hg : Guard a s) :
    Upgrades (allS s) (allS (apply a s)) := by
  have hT := upgrades_of_subset (subset_allS_tableau s)
  have hS := upgrades_of_subset (subset_allS_stock s)
  cases a with
  | move i k j =>
    unfold apply allS
    have ht1 : Upgrades (allS s)
        ((s.tableau.set i
          (flipTopCard ((s.tableau.getD i []).take k))).flatten) := by
      refine upgrades_flatten_set ?_ hT
      refine upgrades_trans ?_ (upgrades_flipTopCard _)
      refine upgrades_subset_right hT ?_
      intro c hc
      exact getD_subset_flatten _ _ (List.take_subset _ _ hc)
    refine upgrades_append ?_ hS
    refine upgrades_flatten_set ?_ ht1
    refine upgrades_trans ?_ (upgrades_resolveCompleted _)
    refine upgrades_append
      (upgrades_subset_right hT (getD_subset_flatten _ _)) ?_
    refine upgrades_subset_right hT ?_
    intro c hc
    exact getD_subset_flatten _ _ (List.drop_subset _ _ hc)
  | emptyMove i k j =>
    unfold apply allS
    have ht1 : Upgrades (allS s)
        ((s.tableau.set i
          (flipTopCard ((s.tableau.getD i []).take k))).flatten) := by
      refine upgrades_flatten_set ?_ hT
      refine upgrades_trans ?_ (upgrades_flipTopCard _)
      refine upgrades_subset_right hT ?_
      intro c hc
      exact getD_subset_flatten _ _ (List.take_subset _ _ hc)
    refine upgrades_append ?_ hS
    refine upgrades_flatten_set ?_ ht1
    refine upgrades_subset_right hT ?_
    intro c hc
    exact getD_subset_flatten _ _ (List.drop_subset _ _ hc)
  | deal =>
    simp only [Guard, guardB, Bool.and_eq_true, Bool.not_eq_true',
      List.isEmpty_eq_false] at hg
    obtain ⟨hstk, hany⟩ := hg
    simp only [apply, handleStockClick]
    have hstk' : s.stock.isEmpty = false := by
      rw [List.isEmpty_eq_false]
      exact hstk
    simp only [hstk', hany, Bool.false_eq_true, if_false, Option.getD_some]
    have h1 := upgrades_dealLoop 10 0 s.tableau s.stock
    have h2 := upgrades_sweepLoop 10 0 (dealLoop 10 0 s.tableau s.stock).1
      s.completedSuits
    unfold allS
    refine upgrades_trans h1 ?_
    refine upgrades_append ?_ ?_
    · exact upgrades_mono_src h2 (List.subset_append_left _ _)
    · exact upgrades_of_subset (List.subset_append_right _ _)

end Spider

namespace SolPlus

def wasteAce : Card :=
  { suit := "♥", rank := "A", value := 1, color := "red", faceUp := true,
    id := "♥-A" }

def kRecycleState : Klondike.GameState :=
  { tableau := [], foundations := [], stock := [], waste := [wasteAce] }

/-- C5 counterexample -- the Klondike recycle branch of `drawFromStock` is a
legal non-undo transition that turns the face-up waste face-down to rebuild
the stock: at a concrete state with an empty stock and one face-up waste
card, the card is face-up before and face-down (in the stock) after. -/
theorem c5_counterexample :
    Klondike.Guard (Klondike.Act.draw 1) kRecycleState ∧
    wasteAce ∈ Klondike.allCards kRecycleState ∧ wasteAce.faceUp = true ∧
    ({ wasteAce with faceUp := false } ∈
      Klondike.allCards (Klondike.apply (Klondike.Act.draw 1) kRecycleState)) ∧
    ¬ Upgrades (Klondike.allCards kRecycleState)
      (Klondike.allCards (Klondike.apply (Klondike.Act.draw 1) kRecycleState)) := by
  decide

/-- C5 (amended) -- for every legal non-undo transition except the Klondike
stock recycle, every card present after the transition is a before-card
unchanged or flipped face-up: no transition ever turns a face-up card
face-down.  The recycle (empty stock, non-empty waste) is the one exception,
flipping the whole waste face-down into the new stock; Spider transitions
need no exception. -/
theorem c5_faceup_monotone :
    (∀ (s : Klondike.GameState) (a : Klondike.Act), Klondike.Guard a s →
      (∀ n, a = Klondike.Act.draw n → s.stock ≠ [] ∨ s.waste = []) →
      Upgrades (Klondike.allCards s)
        (Klondike.allCards (Klondike.apply a s))) ∧
    (∀ (s : Spider.GameState) (a : Spider.Act), Spider.Guard a s →
      Upgrades (Spider.allS s) (Spider.allS (Spider.apply a s))) :=
  ⟨fun _ _ hg hnr => Klondike.upgrades_apply hg hnr,
   fun _ _ hg => Spider.upgrades_applyS hg⟩

/-- Witness for `c5_faceup_monotone`: a concrete draw from a one-card stock
never flips a card face-down. -/
theorem c5_witness :
    Upgrades (Klondike.allCards kGameStart)
      (Klondike.allCards (Klondike.apply (Klondike.Act.draw 1) kGameStart)) :=
  c5_faceup_monotone.1 kGameStart (Klondike.Act.draw 1) (by decide)
    (fun _ _ => Or.inl (by decide))

end SolPlus

namespace Spider

open SolPlus

lemma tableau_ten {t : List (List Card)} (h : t.length = 10) :
    ∃ t0 t1 t2 t3 t4 t5 t6 t7 t8 t9,
      t = [t0, t1, t2, t3, t4, t5, t6, t7, t8, t9] := by
  rcases t with _ | ⟨t0, t⟩
  · simp at h
  rcases t with _ | ⟨t1, t⟩
  · simp at h
  rcases t with _ | ⟨t2, t⟩
  · simp at h
  rcases t with _ | ⟨t3, t⟩
  · simp at h
  rcases t with _ | ⟨t4, t⟩
  · simp at h
  rcases t with _ | ⟨t5, t⟩
  · simp at h
  rcases t with _ | ⟨t6, t⟩
  · simp at h
  rcases t with _ | ⟨t7, t⟩
  · simp at h
  rcases t with _ | ⟨t8, t⟩
  · simp at h
  rcases t with _ | ⟨t9, t⟩
  · simp at h
  rcases t with _ | ⟨t10, t⟩
  · exact ⟨t0, t1, t2, t3, t4, t5, t6, t7, t8, t9, rfl⟩
  · simp at h

end Spider

namespace Spider

open SolPlus

/-- C9 -- the Spider stock deal is a complete no-op (`none`, no state change
and hence no history entry, which is pushed only on the executed path)
whenever any tableau pile is empty, regardless of remaining stock; otherwise,
with the 10 piles and at least 10 stock cards, it deals exactly one face-up
card to the top of each of the 10 piles, consuming exactly the last 10 stock
cards (pile 0 receives the old stock top), and then checks every one of the
10 piles for suit completion, accumulating the completed-suit counter. -/
theorem c9_stock_deal :
    (∀ s : GameState, (∃ p ∈ s.tableau, p = []) →
      handleStockClick s = none) ∧
    (∀ (s : GameState) (rest : List Card)
      (c0 c1 c2 c3 c4 c5 c6 c7 c8 c9 : Card)
      (t0 t1 t2 t3 t4 t5 t6 t7 t8 t9 : List Card),
      s.tableau = [t0, t1, t2, t3, t4, t5, t6, t7, t8, t9] →
      (∀ p ∈ s.tableau, p ≠ []) →
      s.stock = rest ++ [c9, c8, c7, c6, c5, c4, c3, c2, c1, c0] →
      handleStockClick s = some
        { tableau := [(resolveCompleted (t0 ++ [{ c0 with faceUp := true }])).1,
            (resolveCompleted (t1 ++ [{ c1 with faceUp := true }])).1,
            (resolveCompleted (t2 ++ [{ c2 with faceUp := true }])).1,
            (resolveCompleted (t3 ++ [{ c3 with faceUp := true }])).1,
            (resolveCompleted (t4 ++ [{ c4 with faceUp := true }])).1,
            (resolveCompleted (t5 ++ [{ c5 with faceUp := true }])).1,
            (resolveCompleted (t6 ++ [{ c6 with faceUp := true }])).1,
            (resolveCompleted (t7 ++ [{ c7 with faceUp := true }])).1,
            (resolveCompleted (t8 ++ [{ c8 with faceUp := true }])).1,
            (resolveCompleted (t9 ++ [{ c9 with faceUp := true }])).1],
          stock := rest,
          completedSuits := s.completedSuits +
            (resolveCompleted (t0 ++ [{ c0 with faceUp := true }])).2 +
            (resolveCompleted (t1 ++ [{ c1 with faceUp := true }])).2 +
            (resolveCompleted (t2 ++ [{ c2 with faceUp := true }])).2 +
            (resolveCompleted (t3 ++ [{ c3 with faceUp := true }])).2 +
            (resolveCompleted (t4 ++ [{ c4 with faceUp := true }])).2 +
            (resolveCompleted (t5 ++ [{ c5 with faceUp := true }])).2 +
            (resolveCompleted (t6 ++ [{ c6 with faceUp := true }])).2 +
            (resolveCompleted (t7 ++ [{ c7 with faceUp := true }])).2 +
            (resolveCompleted (t8 ++ [{ c8 with faceUp := true }])).2 +
            (resolveCompleted (t9 ++ [{ c9 with faceUp := true }])).2 }) := by
  constructor
  · intro s hex
    obtain ⟨p, hp, hpe⟩ := hex
    have hany : s.tableau.any (fun pile => pile.isEmpty) = true := by
      rw [List.any_eq_true]
      exact ⟨p, hp, by rw [hpe]; rfl⟩
    unfold handleStockClick
    by_cases h1 : s.stock.isEmpty
    · simp [h1]
    · rw [Bool.not_eq_true] at h1
      simp [h1, hany]
  · intro s rest c0 c1 c2 c3 c4 c5 c6 c7 c8 c9
      t0 t1 t2 t3 t4 t5 t6 t7 t8 t9 htab hne hstk
    have hanyf : s.tableau.any (fun pile => pile.isEmpty) = false := by
      rw [List.any_eq_false]
      intro p hp
      rw [Bool.not_eq_true, List.isEmpty_eq_false]
      exact hne p hp
    have hstkne : s.stock.isEmpty = false := by
      rw [List.isEmpty_eq_false, hstk]
      simp
    unfold handleStockClick
    rw [hstkne, hanyf]
    simp only [Bool.false_eq_true, if_false]
    rw [htab, hstk]
    have hdeal : dealLoop 10 0 [t0, t1, t2, t3, t4, t5, t6, t7, t8, t9]
        (rest ++ [c9, c8, c7, c6, c5, c4, c3, c2, c1, c0]) =
        ([t0 ++ [{ c0 with faceUp := true }], t1 ++ [{ c1 with faceUp := true }],
          t2 ++ [{ c2 with faceUp := true }], t3 ++ [{ c3 with faceUp := true }],
          t4 ++ [{ c4 with faceUp := true }], t5 ++ [{ c5 with faceUp := true }],
          t6 ++ [{ c6 with faceUp := true }], t7 ++ [{ c7 with faceUp := true }],
          t8 ++ [{ c8 with faceUp := true }], t9 ++ [{ c9 with faceUp := true }]],
          rest) := by
      simp [dealLoop, List.getLast?_append_of_ne_nil,
        List.dropLast_append_of_ne_nil]
    rw [hdeal]
    simp [sweepLoop]

end Spider

namespace SolPlus

def c9Pile : List Card := [aceOfSpades]

def c9State : Spider.GameState :=
  { tableau := [c9Pile, c9Pile, c9Pile, c9Pile, c9Pile, c9Pile, c9Pile,
      c9Pile, c9Pile, c9Pile],
    stock := [aceOfSpades, aceOfSpades, aceOfSpades, aceOfSpades, aceOfSpades,
      aceOfSpades, aceOfSpades, aceOfSpades, aceOfSpades, aceOfSpades],
    completedSuits := 0 }

def c9EmptyPileState : Spider.GameState :=
  { tableau := [[], c9Pile, c9Pile, c9Pile, c9Pile, c9Pile, c9Pile, c9Pile,
      c9Pile, c9Pile],
    stock := [aceOfSpades],
    completedSuits := 0 }

/-- Witness for `c9_stock_deal`: with an empty pile the deal is refused; with
ten occupied piles and a 10-card stock it deals one face-up card everywhere,
empties the stock and sweeps all piles. -/
theorem c9_witness :
    Spider.handleStockClick c9EmptyPileState = none ∧
    Spider.handleStockClick c9State = some
      { tableau := [(Spider.resolveCompleted (c9Pile ++ [{ aceOfSpades with faceUp := true }])).1,
          (Spider.resolveCompleted (c9Pile ++ [{ aceOfSpades with faceUp := true }])).1,
          (Spider.resolveCompleted (c9Pile ++ [{ aceOfSpades with faceUp := true }])).1,
          (Spider.resolveCompleted (c9Pile ++ [{ aceOfSpades with faceUp := true }])).1,
          (Spider.resolveCompleted (c9Pile ++ [{ aceOfSpades with faceUp := true }])).1,
          (Spider.resolveCompleted (c9Pile ++ [{ aceOfSpades with faceUp := true }])).1,
          (Spider.resolveCompleted (c9Pile ++ [{ aceOfSpades with faceUp := true }])).1,
          (Spider.resolveCompleted (c9Pile ++ [{ aceOfSpades with faceUp := true }])).1,
          (Spider.resolveCompleted (c9Pile ++ [{ aceOfSpades with faceUp := true }])).1,
          (Spider.resolveCompleted (c9Pile ++ [{ aceOfSpades with faceUp := true }])).1],
        stock := [],
        completedSuits := c9State.completedSuits +
            (Spider.resolveCompleted (c9Pile ++ [{ aceOfSpades with faceUp := true }])).2 +
            (Spider.resolveCompleted (c9Pile ++ [{ aceOfSpades with faceUp := true }])).2 +
            (Spider.resolveCompleted (c9Pile ++ [{ aceOfSpades with faceUp := true }])).2 +
            (Spider.resolveCompleted (c9Pile ++ [{ aceOfSpades with faceUp := true }])).2 +
            (Spider.resolveCompleted (c9Pile ++ [{ aceOfSpades with faceUp := true }])).2 +
            (Spider.resolveCompleted (c9Pile ++ [{ aceOfSpades with faceUp := true }])).2 +
            (Spider.resolveCompleted (c9Pile ++ [{ aceOfSpades with faceUp := true }])).2 +
            (Spider.resolveCompleted (c9Pile ++ [{ aceOfSpades with faceUp := true }])).2 +
            (Spider.resolveCompleted (c9Pile ++ [{ aceOfSpades with faceUp := true }])).2 +
            (Spider.resolveCompleted (c9Pile ++ [{ aceOfSpades with faceUp := true }])).2 } :=
  ⟨Spider.c9_stock_deal.1 c9EmptyPileState ⟨[], by decide, rfl⟩,
    Spider.c9_stock_deal.2 c9State [] aceOfSpades aceOfSpades aceOfSpades aceOfSpades
      aceOfSpades aceOfSpades aceOfSpades aceOfSpades aceOfSpades aceOfSpades
      c9Pile c9Pile c9Pile c9Pile c9Pile c9Pile c9Pile c9Pile c9Pile c9Pile
      rfl (by decide) rfl⟩

end SolPlus

namespace SolPlus

lemma flipTopCard_getLast_faceUp {l : List Card} {c : Card}
    (h : (flipTopCard l).getLast? = some c) : c.faceUp = true := by
  unfold flipTopCard at h
  cases hl : l.getLast? with
  | none =>
    rw [hl] at h
    rw [hl] at h
    cases h
  | some c0 =>
    rw [hl] at h
    by_cases hc0 : c0.faceUp
    · simp only [hc0, if_true] at h
      rw [hl] at h
      rw [Option.some.injEq] at h
      subst h
      exact hc0
    · simp only [hc0, Bool.false_eq_true, if_false, List.getLast?_concat,
        Option.some.injEq] at h
      subst h
      rfl

end SolPlus

namespace Spider

open SolPlus

/-- The 13-card run ♠K down to ♠A, face-up. -/
def kToAceSpades : List Card :=
  (List.range 13).map (fun i =>
    { suit := "♠", rank := RANKS.getD (12 - i) "", value := 13 - (i : Int),
      color := "black", faceUp := true, id := "♠-run-" ++ toString i })

/-- A Spider state with that full run on pile 0 and pile 1 empty. -/
def c8State : GameState :=
  { tableau := [kToAceSpades, [], [], [], [], [], [], [], [], []],
    stock := [], completedSuits := 0 }

/-- C8 counterexample -- the claim says the destination is checked for a
suit-complete run after every executed move "including when the destination
was an empty pile"; `handleEmptyPileClick` performs no such check: moving the
full ♠K..♠A run onto the empty pile 1 leaves the complete run sitting there
(the checker itself reports it) and the completed-suit counter untouched. -/
theorem c8_counterexample :
    Guard (Act.emptyMove 0 0 1) c8State ∧
    (apply (Act.emptyMove 0 0 1) c8State).tableau.getD 1 [] = kToAceSpades ∧
    checkForCompletedSuit
      ((apply (Act.emptyMove 0 0 1) c8State).tableau.getD 1 []) = some 13 ∧
    (apply (Act.emptyMove 0 0 1) c8State).completedSuits =
      c8State.completedSuits ∧
    ((apply (Act.emptyMove 0 0 1) c8State).tableau.getD 1 []).length = 13 := by
  decide

/-- C8 (amended) -- after a Spider `handleCardClick` move the destination
pile is exactly the landed pile passed through the completion handler, whose
check fires only on a face-up, one-suit, King-down-to-Ace top-13 (then it
removes exactly those 13 cards, bumps the counter by exactly 1, and the new
top is face-up); but a move onto an empty pile (`handleEmptyPileClick`)
places the cards with no completion check and leaves the counter unchanged. -/
theorem c8_completion_check :
    (∀ (p : List Card) (n : Nat), checkForCompletedSuit p = some n →
      n = 13 ∧ 13 ≤ p.length ∧
      (∀ c ∈ p.drop (p.length - 13), c.faceUp = true) ∧
      (∀ c ∈ p.drop (p.length - 13), ∀ c' ∈ p.drop (p.length - 13),
        c.suit = c'.suit) ∧
      (∀ i, i < 13 →
        ((p.drop (p.length - 13)).getD i default).value = 13 - (i : Int))) ∧
    (∀ p : List Card, checkForCompletedSuit p = some 13 →
      (resolveCompleted p).1.length = p.length - 13 ∧
      (resolveCompleted p).2 = 1 ∧
      (∀ c, (resolveCompleted p).1.getLast? = some c → c.faceUp = true)) ∧
    (∀ p : List Card, checkForCompletedSuit p = none →
      resolveCompleted p = (p, 0)) ∧
    (∀ (s : GameState) (i k j : Nat), Guard (Act.move i k j) s →
      (apply (Act.move i k j) s).tableau.getD j [] =
        (resolveCompleted ((s.tableau.getD j []) ++
          (s.tableau.getD i []).drop k)).1 ∧
      (apply (Act.move i k j) s).completedSuits = s.completedSuits +
        (resolveCompleted ((s.tableau.getD j []) ++
          (s.tableau.getD i []).drop k)).2) ∧
    (∀ (s : GameState) (i k j : Nat), Guard (Act.emptyMove i k j) s →
      (apply (Act.emptyMove i k j) s).tableau.getD j [] =
        (s.tableau.getD i []).drop k ∧
      (apply (Act.emptyMove i k j) s).completedSuits = s.completedSuits) := by
  refine ⟨?_, ?_, ?_, ?_, ?_⟩
  · intro p n h
    simp only [checkForCompletedSuit] at h
    split at h
    · cases h
    · rename_i hlen
      split at h
      · cases h
      · rename_i hface
        split at h
        · cases h
        · rename_i hd c0 hhead
          split at h
          · cases h
          · rename_i hsuit
            split at h
            · rename_i hvals
              rw [Option.some.injEq] at h
              subst h
              rw [Bool.not_eq_true', Bool.not_eq_false] at hface hsuit
              rw [List.all_eq_true] at hface hsuit
              refine ⟨rfl, by omega, ?_, ?_, ?_⟩
              · intro c hc
                exact hface c hc
              · intro c hc c' hc'
                have h1 := of_decide_eq_true (hsuit c hc)
                have h2 := of_decide_eq_true (hsuit c' hc')
                rw [h1, h2]
              · intro i hi
                rw [List.all_eq_true] at hvals
                have := hvals i (List.mem_range.mpr hi)
                exact of_decide_eq_true this
            · cases h
  · intro p h
    obtain ⟨_, hlen⟩ := checkForCompletedSuit_some h
    unfold resolveCompleted
    rw [h]
    refine ⟨?_, rfl, ?_⟩
    · show (flipTopCard (p.take (p.length - 13))).length = p.length - 13
      rw [length_flipTopCard, List.length_take]
      omega
    · intro c hc
      exact flipTopCard_getLast_faceUp hc
  · intro p h
    unfold resolveCompleted
    rw [h]
  · intro s i k j hg
    have hj : j < s.tableau.length := by
      simp only [Guard, guardB, Bool.and_eq_true, decide_eq_true_eq] at hg
      tauto
    simp only [apply]
    constructor
    · rw [getD_set_self _ _ _ (by simpa using hj)]
    · trivial
  · intro s i k j hg
    have hj : j < s.tableau.length := by
      simp only [Guard, guardB, Bool.and_eq_true, decide_eq_true_eq] at hg
      tauto
    simp only [apply]
    constructor
    · rw [getD_set_self _ _ _ (by simpa using hj)]
    · trivial

end Spider

namespace Spider

/-- Witness for `c8_completion_check`: on the concrete full ♠K..♠A pile the
checker fires, and the handler removes exactly 13 cards and reports one
completed suit. -/
theorem c8_witness :
    (∀ c ∈ kToAceSpades.drop (kToAceSpades.length - 13), c.faceUp = true) ∧
    (resolveCompleted kToAceSpades).1.length = kToAceSpades.length - 13 ∧
    (resolveCompleted kToAceSpades).2 = 1 :=
  ⟨(c8_completion_check.1 kToAceSpades 13 (by decide)).2.2.1,
   (c8_completion_check.2.1 kToAceSpades (by decide)).1,
   (c8_completion_check.2.1 kToAceSpades (by decide)).2.1⟩

end Spider

namespace Klondike

open SolPlus

/-- A Klondike state with the full ♠ foundation (King on top) and all seven
tableau piles empty. -/
def c10State : GameState :=
  { tableau := [[], [], [], [], [], [], []],
    foundations := [fullSpadeFoundation, [], [], []],
    stock := [], waste := [] }

/-- C10 counterexample -- the claim says a non-empty foundation's top card
can be moved to a tableau pile whenever `canPlaceOnTableau` accepts it.  A
King on a foundation is accepted by `canPlaceOnTableau` on an empty pile, but
no foundation-to-tableau transition exists: tableau clicks reach
`handleCardClick` only through a rendered card (non-empty pile), and the
empty-pile handler ignores foundation selections, so every
`foundationToTableau` guard fails. -/
theorem c10_counterexample :
    canPlaceOnTableau (fullSpadeFoundation.getLast?.getD default)
      ([] : List Card) = true ∧
    c10State.foundations.getD 0 [] ≠ [] ∧
    c10State.tableau.length = 7 ∧
    ((List.range 7).all
      (fun j => !(guardB (Act.foundationToTableau 0 j) c10State))) = true := by
  decide

lemma isFoundationRunFrom_dropLast : ∀ (p : List Card) (su : String) (v : Int),
    isFoundationRunFrom su v p = true →
    isFoundationRunFrom su v p.dropLast = true := by
  intro p
  induction p with
  | nil => intro su v _; exact rfl
  | cons c t ih =>
    intro su v h
    cases t with
    | nil => rfl
    | cons c' t' =>
      have h1 := band_elim h
      show isFoundationRunFrom su v (c :: (c' :: t').dropLast) = true
      unfold isFoundationRunFrom
      exact band_intro h1.1 (ih su (v + 1) h1.2)

/-- C10 (amended) -- whenever the foundation-to-tableau guard holds (a
non-empty foundation, a non-empty target tableau pile accepted by
`canPlaceOnTableau`; empty tableau piles never accept a foundation card,
since the empty-pile handler ignores foundation selections), the executed
move removes exactly the top card from that foundation — which therefore
stays suit-homogeneous and rank-contiguous from Ace — appends it to the
target pile, and the move counter increments by exactly one. -/
theorem c10_foundation_to_tableau :
    ∀ (s : GameState) (f j : Nat), Guard (Act.foundationToTableau f j) s →
      (apply (Act.foundationToTableau f j) s).foundations.getD f [] =
        (s.foundations.getD f []).dropLast ∧
      (apply (Act.foundationToTableau f j) s).tableau.getD j [] =
        (s.tableau.getD j []) ++
          [(s.foundations.getD f []).getLast?.getD default] ∧
      movesDelta (Act.foundationToTableau f j) s = 1 ∧
      (∀ (su : String) (v : Int),
        isFoundationRunFrom su v (s.foundations.getD f []) = true →
        isFoundationRunFrom su v
          ((apply (Act.foundationToTableau f j) s).foundations.getD f []) =
          true) := by
  intro s f j hg
  simp only [Guard, guardB, Bool.and_eq_true, Bool.not_eq_true',
    List.isEmpty_eq_false, decide_eq_true_eq] at hg
  obtain ⟨⟨⟨⟨hf, hfne⟩, hj⟩, hjne⟩, hcan⟩ := hg
  have e1 : (apply (Act.foundationToTableau f j) s).foundations.getD f [] =
      (s.foundations.getD f []).dropLast := by
    simp only [apply]
    rw [getD_set_self _ _ _ (by simpa using hf)]
  refine ⟨e1, ?_, rfl, ?_⟩
  · simp only [apply]
    rw [getD_set_self _ _ _ (by simpa using hj)]
  · intro su v h
    rw [e1]
    exact isFoundationRunFrom_dropLast _ su v h

/-- Witness state for `c10_foundation_to_tableau`: ♠A on foundation 0, a
face-up red 2 on tableau pile 0. -/
def redTwoUp : Card :=
  { suit := "♥", rank := "2", value := 2, color := "red", faceUp := true,
    id := "♥-2" }

def spadeAceUp : Card :=
  { suit := "♠", rank := "A", value := 1, color := "black", faceUp := true,
    id := "♠-A" }

def c10WitState : GameState :=
  { tableau := [[redTwoUp], [], [], [], [], [], []],
    foundations := [[spadeAceUp], [], [], []],
    stock := [], waste := [] }

theorem c10_witness :
    (apply (Act.foundationToTableau 0 0) c10WitState).foundations.getD 0 [] =
      (c10WitState.foundations.getD 0 []).dropLast ∧
    (apply (Act.foundationToTableau 0 0) c10WitState).tableau.getD 0 [] =
      (c10WitState.tableau.getD 0 []) ++
        [(c10WitState.foundations.getD 0 []).getLast?.getD default] ∧
    movesDelta (Act.foundationToTableau 0 0) c10WitState = 1 :=
  ⟨(c10_foundation_to_tableau c10WitState 0 0 (by decide)).1,
   (c10_foundation_to_tableau c10WitState 0 0 (by decide)).2.1,
   (c10_foundation_to_tableau c10WitState 0 0 (by decide)).2.2.1⟩

end Klondike
